import Mathlib

/-!
# Verification of the `@xstate/ts-project` extraction / patching core

This file gives a shallow embedding of the machine-extraction and
patch-synthesis core of the repository (packages `ts-project` and its
utility module) and proves or refutes the frozen specification claims
about it.

Conventions used throughout:
* JavaScript strings are Lean `String`s; `split('.')` / `join('.')` are
  modelled character-exactly via `List.splitOn` / `List.intercalate` on
  `List Char`.
* `uniqueId()` (random in the source) is modelled by a deterministic
  counter, which only plays the role of producing process-unique tokens.
* A node of one extracted tree is identified by the chain of `states`
  keys leading from the node up to the root (leaf first), which is the
  information the source keeps in `digraph.nodes` via `parentId` +
  `data.key` and in `ctx.treeNodes` via the `children` maps.
-/

/-! ## String helpers: JS `split('.')` / `join('.')` -/

/-- JS `s.split('.')` (single-character separator, no limit). -/
def splitDot (s : String) : List String :=
  (s.toList.splitOn '.').map List.asString

/-- JS `array.join('.')`. -/
def joinDot (l : List String) : String :=
  (List.intercalate ['.'] (l.map String.toList)).asString

/-- JS `s[0] === '#'`. -/
def startsWithHash (s : String) : Bool :=
  s.toList.head? = some '#'

/-- JS `s.slice(1)`. -/
def sliceOne (s : String) : String :=
  (s.toList.drop 1).asString

theorem toList_append (a b : String) : (a ++ b).toList = a.toList ++ b.toList := by
  cases a; cases b; rfl

theorem splitDot_joinDot (l : List String) (hne : l ≠ [])
    (hdot : ∀ x ∈ l, '.' ∉ x.toList) : splitDot (joinDot l) = l := by
  unfold splitDot joinDot
  rw [List.toList_asString]
  rw [List.splitOn_intercalate (l.map String.toList) '.' (by
    intro c hc
    rcases List.mem_map.1 hc with ⟨x, hx, rfl⟩
    exact hdot x hx) (by simpa using hne)]
  rw [List.map_map, show List.asString ∘ String.toList = id from funext String.asString_toList,
    List.map_id]

theorem joinDot_singleton (s : String) : joinDot [s] = s := by
  unfold joinDot
  rw [show List.intercalate ['.'] ([s].map String.toList) = s.toList by
    simp [List.intercalate]]
  exact String.asString_toList s

/-- `'.' + l.join('.')` equals joining with a leading empty segment. -/
theorem dot_append_joinDot (l : List String) (h : l ≠ []) :
    "." ++ joinDot l = joinDot ("" :: l) := by
  have : (("." : String) ++ joinDot l).toList = (joinDot ("" :: l)).toList := by
    rw [toList_append]
    unfold joinDot
    rw [List.toList_asString, List.toList_asString]
    cases l with
    | nil => exact absurd rfl h
    | cons x xs => simp [List.intercalate]
  calc "." ++ joinDot l = (("." : String) ++ joinDot l).toList.asString := by
        rw [String.asString_toList]
    _ = (joinDot ("" :: l)).toList.asString := by rw [this]
    _ = joinDot ("" :: l) := String.asString_toList _

/-! ## Tree model of one extracted machine

`ctx.treeNodes` / `digraph.nodes` describe one rooted tree: every node has a
`parentId`, a `data.key` (the `states` property key it sits under) and an
optional declared `id`.  We identify a node by the chain of keys from the
node up to the root (leaf first), the exact information those maps encode. -/

/-- A machine's state tree: declared `id` (from an `id: "…"` property) plus
the `children` map of the matching `TreeNode` (entries of the `states`
object, key → child). -/
inductive MTree where
  | node (declId : Option String) (children : List (String × MTree))

def MTree.declId : MTree → Option String
  | .node d _ => d

def MTree.children : MTree → List (String × MTree)
  | .node _ c => c

/-- `treeNode.children[key]`. -/
def childAt (t : MTree) (k : String) : Option MTree :=
  (t.children.find? (fun e => e.1 == k)).map (fun e => e.2)

/-- Walk a root-first key path down the tree. -/
def subtreeAt (t : MTree) : List String → Option MTree
  | [] => some t
  | k :: rest =>
    match childAt t k with
    | some c => subtreeAt c rest
    | none => none

/-- A node id: the `states` keys from the node up to the root, leaf first
(`[]` is the root, `key :: parent` is a child). -/
abbrev NodePath := List String

def subtreeAtRev (t : MTree) (p : NodePath) : Option MTree :=
  subtreeAt t p.reverse

mutual
/-- All node paths of the tree (leaf-first), the key set of `ctx.treeNodes`. -/
def allPathsRev : MTree → List NodePath
  | .node _ children => [] :: allPathsRevL children
def allPathsRevL : List (String × MTree) → List NodePath
  | [] => []
  | e :: rest => (allPathsRev e.2).map (fun p => p ++ [e.1]) ++ allPathsRevL rest
end

mutual
/-- All declared ids occurring in the tree (root first). -/
def collectIds : MTree → List String
  | .node d children => d.toList ++ collectIdsL children
def collectIdsL : List (String × MTree) → List String
  | [] => []
  | e :: rest => collectIds e.2 ++ collectIdsL rest
end

/-- Sanity of `states` keys: a key is non-empty, contains no `.` and does
not begin with `#`, so that the textual target-descriptor syntax can
express it. -/
def keyOK (k : String) : Bool :=
  decide (k ≠ "" ∧ '.' ∉ k.toList ∧ k.toList.head? ≠ some '#')

mutual
def keysOK : MTree → Bool
  | .node _ children => keysOKL children
def keysOKL : List (String × MTree) → Bool
  | [] => true
  | e :: rest => keyOK e.1 && keysOK e.2 && keysOKL rest
end

/-- Sanity of declared ids: they contain no `.`. -/
def idsOK (t : MTree) : Bool :=
  (collectIds t).all (fun s => decide ('.' ∉ s.toList))

/-- `projectMachineState.idMap[nodeId]` — the node's declared id. -/
def idMapLookup (t : MTree) (p : NodePath) : Option String :=
  (subtreeAtRev t p).bind MTree.declId

/-- JS truthiness filter for an optional string (`''` is falsy). -/
def jsTruthy : Option String → Option String
  | some s => if s = "" then none else some s
  | none => none

/-- `ctx.idToNodeIdMap[s]`: the node registered under declared id `s`. -/
def idToNodeIdMapLookup (t : MTree) (s : String) : Option NodePath :=
  (allPathsRev t).find? (fun p => idMapLookup t p == some s)

/-- `ctx.treeNodes[id]` as an id-validating lookup. -/
def treeNodeLookup (t : MTree) (p : NodePath) : Option NodePath :=
  if (subtreeAtRev t p).isSome then some p else none

def childAtRev (t : MTree) (p : NodePath) (k : String) : Option MTree :=
  (subtreeAtRev t p).bind (fun s => childAt s k)

/-! ## `index.ts`: target-descriptor synthesis and target resolution -/

def DEFAULT_ROOT_ID : String := "(machine)"

/-- `node.data.key` (the root's key defaults to `(machine)`). -/
def nodeKey (p : NodePath) : String := p.headD DEFAULT_ROOT_ID

/-- `getPathNodes(digraph, node)`: the chain `[node, parent, …, root]`. -/
def getPathNodes : NodePath → List NodePath
  | [] => [[]]
  | k :: r => (k :: r) :: getPathNodes r

/-- JS `arr.slice(0, -n)` (used only with `n ≥ 1`). -/
def sliceDropEnd {α : Type} (l : List α) (n : Nat) : List α :=
  l.take (l.length - n)

/-- The final `for` loop of `getBestTargetDescriptor`: climb from the
target toward the root until a node with a (truthy) declared id — or the
root — is reached; `none` models the `assertUnreachable()` after it. -/
def climbLoop (t : MTree) (all : List NodePath) : List NodePath → Nat → Option String
  | [], _ => none
  | current :: rest, i =>
    let id := jsTruthy (idMapLookup t current)
    if id.isSome ∨ current = [] then
      some (joinDot (("#" ++ id.getD DEFAULT_ROOT_ID) :: ((all.take i).map nodeKey).reverse))
    else
      climbLoop t all rest (i + 1)

/-- `getBestTargetDescriptor(sourceId, targetId, projectMachineState)`;
`none` models the `assert` / `assertUnreachable` hard failures. -/
def getBestTargetDescriptor (t : MTree) (source target : NodePath) : Option String :=
  if target = [] then
    some ("#" ++ (jsTruthy (idMapLookup t target)).getD DEFAULT_ROOT_ID)
  else if source = target then
    some (nodeKey source)
  else
    let targetPathNodes := getPathNodes target
    let sourcePathNodes := getPathNodes source
    match targetPathNodes.find? (fun a => decide (a ∈ sourcePathNodes)) with
    | none => none
    | some commonNode =>
      if commonNode = source then
        some ("." ++
          joinDot (((sliceDropEnd targetPathNodes sourcePathNodes.length).map nodeKey).reverse))
      else if source ≠ [] ∧ commonNode = source.tail then
        some
          (joinDot (((sliceDropEnd targetPathNodes (sourcePathNodes.length - 1)).map nodeKey).reverse))
      else
        match jsTruthy (idMapLookup t target) with
        | some id => some ("#" ++ id)
        | none => climbLoop t targetPathNodes targetPathNodes 0

/-- `resolvePathOrigin(ctx, sourceId, origin)`. -/
def resolvePathOrigin (t : MTree) (source : NodePath) (origin : String) : Option NodePath :=
  if origin = "" then treeNodeLookup t source
  else if startsWithHash origin then
    (idToNodeIdMapLookup t (sliceOne origin)).bind (treeNodeLookup t)
  else
    match source with
    | [] => none
    | _ :: parentPath =>
      match childAtRev t parentPath origin with
      | some _ => some (origin :: parentPath)
      | none => none

/-- The `while ((segment = path.shift()))` walk of `resolveTargetId`; note
that a falsy (empty) segment ends the loop successfully at the current
marker. -/
def walkPath (t : MTree) (marker : NodePath) : List String → Option NodePath
  | [] => some marker
  | seg :: rest =>
    if seg = "" then some marker
    else
      match childAtRev t marker seg with
      | some _ => walkPath t (seg :: marker) rest
      | none => none

/-- `resolveTargetId(ctx, sourceId, target)`; `none` means the source
recorded `transition_target_unresolved` and returned `undefined`. -/
def resolveTargetId (t : MTree) (source : NodePath) (target : String) : Option NodePath :=
  match splitDot target with
  | [] => none
  | origin :: path =>
    match resolvePathOrigin t source origin with
    | none => none
    | some resolvedOrigin => walkPath t resolvedOrigin path

/-! ## Structural lemmas about the tree model -/

theorem subtreeAt_app (x y : List String) (t : MTree) :
    subtreeAt t (x ++ y) = (subtreeAt t x).bind (fun s => subtreeAt s y) := by
  induction x generalizing t with
  | nil => simp [subtreeAt]
  | cons k xs ih =>
    simp only [List.cons_append, subtreeAt]
    cases childAt t k with
    | none => simp
    | some c => simp [ih]

theorem childAtRev_eq (t : MTree) (p : NodePath) (k : String) :
    childAtRev t p k = subtreeAtRev t (k :: p) := by
  unfold childAtRev subtreeAtRev
  rw [List.reverse_cons, subtreeAt_app]
  cases subtreeAt t p.reverse with
  | none => rfl
  | some s =>
    show childAt s k = subtreeAt s [k]
    cases h : childAt s k <;> simp [subtreeAt, h]

theorem subtreeAtRev_isSome_of_append (t : MTree) (a b : NodePath)
    (h : (subtreeAtRev t (a ++ b)).isSome) : (subtreeAtRev t b).isSome := by
  unfold subtreeAtRev at *
  rw [List.reverse_append, subtreeAt_app] at h
  cases hb : subtreeAt t b.reverse with
  | none => rw [hb] at h; simp at h
  | some s => simp

/-- Unpack a successful `children[k]` lookup into a member entry. -/
theorem childAt_mem (t : MTree) (k : String) (c : MTree) (h : childAt t k = some c) :
    (k, c) ∈ t.children := by
  unfold childAt at h
  cases hf : t.children.find? (fun e => e.1 == k) with
  | none => rw [hf] at h; simp at h
  | some e =>
    rw [hf] at h
    simp at h
    have hm := List.mem_of_find?_eq_some hf
    have hp := List.find?_some hf
    have : e.1 = k := by simpa using hp
    cases e with
    | mk e1 e2 =>
      cases h
      cases this
      exact hm

theorem mem_allPathsRevL {ch : List (String × MTree)} {k : String} {c : MTree} {p : NodePath}
    (hmem : (k, c) ∈ ch) (hp : p ∈ allPathsRev c) : p ++ [k] ∈ allPathsRevL ch := by
  induction ch with
  | nil => cases hmem
  | cons e rest ih =>
    rw [allPathsRevL]
    rcases List.mem_cons.1 hmem with rfl | hmem
    · exact List.mem_append_left _ (List.mem_map_of_mem _ hp)
    · exact List.mem_append_right _ (ih hmem)

theorem mem_collectIdsL {ch : List (String × MTree)} {k : String} {c : MTree} {i : String}
    (hmem : (k, c) ∈ ch) (hi : i ∈ collectIds c) : i ∈ collectIdsL ch := by
  induction ch with
  | nil => cases hmem
  | cons e rest ih =>
    rw [collectIdsL]
    rcases List.mem_cons.1 hmem with rfl | hmem
    · exact List.mem_append_left _ hi
    · exact List.mem_append_right _ (ih hmem)

theorem collectIds_sublist {ch : List (String × MTree)} {k : String} {c : MTree}
    (hmem : (k, c) ∈ ch) : List.Sublist (collectIds c) (collectIdsL ch) := by
  induction ch with
  | nil => cases hmem
  | cons e rest ih =>
    rw [collectIdsL]
    rcases List.mem_cons.1 hmem with rfl | hmem
    · exact List.sublist_append_left _ _
    · exact (ih hmem).trans (List.sublist_append_right _ _)

theorem collectIdsL_disjoint {ch : List (String × MTree)} (hnd : (collectIdsL ch).Nodup)
    {k : String} {c : MTree} {k' : String} {c' : MTree}
    (h1 : (k, c) ∈ ch) (h2 : (k', c') ∈ ch) (hkk : k ≠ k') :
    ∀ i, i ∈ collectIds c → i ∈ collectIds c' → False := by
  induction ch with
  | nil => cases h1
  | cons e rest ih =>
    rw [collectIdsL] at hnd
    intro i hic hic'
    rcases List.mem_cons.1 h1 with h1eq | h1m
    · rcases List.mem_cons.1 h2 with h2eq | h2m
      · rw [← h2eq] at h1eq
        exact hkk (congrArg Prod.fst h1eq)
      · have hdisj := List.disjoint_of_nodup_append hnd
        exact hdisj (h1eq ▸ hic) (mem_collectIdsL h2m hic')
    · rcases List.mem_cons.1 h2 with h2eq | h2m
      · have hdisj := List.disjoint_of_nodup_append hnd
        exact hdisj (h2eq ▸ hic') (mem_collectIdsL h1m hic)
      · exact ih hnd.of_append_right h1m h2m i hic hic'

theorem keysOKL_spec {ch : List (String × MTree)} (h : keysOKL ch = true)
    {k : String} {c : MTree} (hmem : (k, c) ∈ ch) :
    keyOK k = true ∧ keysOK c = true := by
  induction ch with
  | nil => cases hmem
  | cons e rest ih =>
    rw [keysOKL] at h
    simp only [Bool.and_eq_true] at h
    rcases List.mem_cons.1 hmem with rfl | hmem
    · exact ⟨h.1.1, h.1.2⟩
    · exact ih h.2 hmem

theorem reverse_mem_allPathsRev (t : MTree) (p : List String)
    (h : (subtreeAt t p).isSome) : p.reverse ∈ allPathsRev t := by
  induction p generalizing t with
  | nil => cases t with | node d ch => simp [allPathsRev]
  | cons k rest ih =>
    cases t with
    | node d ch =>
      simp only [subtreeAt] at h
      cases hc : childAt (MTree.node d ch) k with
      | none => rw [hc] at h; simp at h
      | some c =>
        rw [hc] at h
        have hmem : (k, c) ∈ ch := childAt_mem _ _ _ hc
        have hin := ih c h
        rw [allPathsRev, List.reverse_cons]
        exact List.mem_cons_of_mem _ (mem_allPathsRevL hmem hin)

theorem mem_allPathsRev (t : MTree) (p : NodePath)
    (h : (subtreeAtRev t p).isSome) : p ∈ allPathsRev t := by
  have := reverse_mem_allPathsRev t p.reverse h
  simpa using this

theorem collectIds_mem (t : MTree) (p : List String) (i : String)
    (h : (subtreeAt t p).bind MTree.declId = some i) : i ∈ collectIds t := by
  induction p generalizing t with
  | nil =>
    cases t with
    | node d ch =>
      simp only [subtreeAt, Option.bind_some, MTree.declId] at h
      rw [collectIds]
      subst h
      simp
  | cons k rest ih =>
    cases t with
    | node d ch =>
      simp only [subtreeAt] at h
      cases hc : childAt (MTree.node d ch) k with
      | none => rw [hc] at h; simp at h
      | some c =>
        rw [hc] at h
        have hmem : (k, c) ∈ ch := childAt_mem _ _ _ hc
        have hin := ih c h
        rw [collectIds]
        exact List.mem_append_right _ (mem_collectIdsL hmem hin)

theorem elems_keyOK (t : MTree) (p : List String) (hk : keysOK t = true)
    (h : (subtreeAt t p).isSome) : ∀ x ∈ p, keyOK x = true := by
  induction p generalizing t with
  | nil => intro x hx; cases hx
  | cons k rest ih =>
    cases t with
    | node d ch =>
      simp only [subtreeAt] at h
      cases hc : childAt (MTree.node d ch) k with
      | none => rw [hc] at h; simp at h
      | some c =>
        rw [hc] at h
        have hmem : (k, c) ∈ ch := childAt_mem _ _ _ hc
        rw [keysOK] at hk
        have := keysOKL_spec hk hmem
        intro x hx
        rcases List.mem_cons.1 hx with rfl | hx
        · exact this.1
        · exact ih c this.2 h x hx

theorem find?_eq_some_of_unique {α : Type} (l : List α) (pred : α → Bool) (a : α)
    (ha : a ∈ l) (hpa : pred a = true) (huniq : ∀ b ∈ l, pred b = true → b = a) :
    l.find? pred = some a := by
  induction l with
  | nil => cases ha
  | cons x xs ih =>
    by_cases hx : pred x = true
    · have hxa : x = a := huniq x (List.mem_cons_self x xs) hx
      subst hxa
      simp [List.find?_cons_of_pos, hx]
    · rw [List.find?_cons_of_neg _ hx]
      have ha' : a ∈ xs := by
        rcases List.mem_cons.1 ha with rfl | h
        · exact absurd hpa hx
        · exact h
      exact ih ha' (fun b hb hpb => huniq b (List.mem_cons_of_mem _ hb) hpb)

/-- Declared ids are injective over the tree when the collected id list
has no duplicates. -/
theorem declId_inj : ∀ (p : List String) (t : MTree), (collectIds t).Nodup →
    ∀ (q : List String) (i : String),
      (subtreeAt t p).bind MTree.declId = some i →
      (subtreeAt t q).bind MTree.declId = some i → p = q := by
  intro p
  induction p with
  | nil =>
    intro t hnd q i hp hq
    cases q with
    | nil => rfl
    | cons k q' =>
      exfalso
      cases t with
      | node d ch =>
        have hp' : d = some i := hp
        simp only [subtreeAt] at hq
        cases hc : childAt (MTree.node d ch) k with
        | none => rw [hc] at hq; simp at hq
        | some c =>
          rw [hc] at hq
          have hmem : (k, c) ∈ ch := childAt_mem _ _ _ hc
          have hin : i ∈ collectIds c := collectIds_mem c q' i hq
          have hflat : i ∈ collectIdsL ch := mem_collectIdsL hmem hin
          rw [collectIds] at hnd
          rw [hp'] at hnd
          simp only [Option.toList_some, List.singleton_append, List.nodup_cons] at hnd
          exact hnd.1 hflat
  | cons k p' ih =>
    intro t hnd q i hp hq
    cases t with
    | node d ch =>
      simp only [subtreeAt] at hp
      cases hc : childAt (MTree.node d ch) k with
      | none => rw [hc] at hp; simp at hp
      | some c =>
        rw [hc] at hp
        have hmemk : (k, c) ∈ ch := childAt_mem _ _ _ hc
        have hic : i ∈ collectIds c := collectIds_mem c p' i hp
        have hndflat : (collectIdsL ch).Nodup := by
          rw [collectIds] at hnd
          exact hnd.of_append_right
        cases q with
        | nil =>
          exfalso
          have hq' : d = some i := hq
          have hflat : i ∈ collectIdsL ch := mem_collectIdsL hmemk hic
          rw [collectIds, hq'] at hnd
          simp only [Option.toList_some, List.singleton_append, List.nodup_cons] at hnd
          exact hnd.1 hflat
        | cons k' q' =>
          simp only [subtreeAt] at hq
          cases hc' : childAt (MTree.node d ch) k' with
          | none => rw [hc'] at hq; simp at hq
          | some c' =>
            rw [hc'] at hq
            have hmemk' : (k', c') ∈ ch := childAt_mem _ _ _ hc'
            have hic' : i ∈ collectIds c' := collectIds_mem c' q' i hq
            by_cases hkk : k = k'
            · subst hkk
              have hcc : c = c' := by
                rw [hc] at hc'
                exact Option.some.inj hc'
              subst hcc
              have hndc : (collectIds c).Nodup := hndflat.sublist (collectIds_sublist hmemk)
              have := ih c hndc q' i hp hq
              rw [this]
            · exact absurd (collectIdsL_disjoint hndflat hmemk hmemk' hkk i hic hic') id

theorem jsTruthy_some {o : Option String} {s : String} (h : jsTruthy o = some s) :
    o = some s ∧ s ≠ "" := by
  cases o with
  | none => simp [jsTruthy] at h
  | some v =>
    by_cases hv : v = ""
    · subst hv; simp [jsTruthy] at h
    · simp only [jsTruthy, if_neg hv] at h
      cases h
      exact ⟨rfl, hv⟩

theorem keyOK_spec {k : String} (h : keyOK k = true) :
    k ≠ "" ∧ '.' ∉ k.toList ∧ k.toList.head? ≠ some '#' :=
  of_decide_eq_true h

/-- `ctx.idToNodeIdMap` is inverse to `idMap` when declared ids are
duplicate-free. -/
theorem idToNodeIdMap_inverse (t : MTree) (p : NodePath) (i : String)
    (hnd : (collectIds t).Nodup) (hp : idMapLookup t p = some i) :
    idToNodeIdMapLookup t i = some p := by
  unfold idToNodeIdMapLookup
  apply find?_eq_some_of_unique
  · apply mem_allPathsRev
    unfold idMapLookup at hp
    cases h : subtreeAtRev t p with
    | none => rw [h] at hp; simp at hp
    | some s => simp
  · simp [hp]
  · intro q hq hpq
    have hq' : idMapLookup t q = some i := by simpa using hpq
    unfold idMapLookup subtreeAtRev at hp hq'
    have heq := declId_inj q.reverse t hnd p.reverse i hq' hp
    have := congrArg List.reverse heq
    simpa using this

theorem walkPath_spec (t : MTree) : ∀ (σ : List String) (m : NodePath),
    (∀ s ∈ σ, s ≠ "") →
    (subtreeAtRev t (σ.reverse ++ m)).isSome →
    walkPath t m σ = some (σ.reverse ++ m) := by
  intro σ
  induction σ with
  | nil => intro m _ _; simp [walkPath]
  | cons s rest ih =>
    intro m hne hvalid
    have hs : s ≠ "" := hne s (List.mem_cons_self s rest)
    have hperm : (s :: rest).reverse ++ m = rest.reverse ++ (s :: m) := by simp
    have hsm : (subtreeAtRev t (s :: m)).isSome := by
      rw [hperm] at hvalid
      exact subtreeAtRev_isSome_of_append t _ _ hvalid
    rw [← childAtRev_eq] at hsm
    simp only [walkPath, if_neg hs]
    cases hc : childAtRev t m s with
    | none => rw [hc] at hsm; simp at hsm
    | some c =>
      rw [hperm]
      exact ih (s :: m) (fun x hx => hne x (List.mem_cons_of_mem _ hx)) (by rw [← hperm]; exact hvalid)

theorem getPathNodes_eq_tails (p : NodePath) : getPathNodes p = p.tails := by
  induction p with
  | nil => rfl
  | cons k r ih => rw [getPathNodes, List.tails_cons, ih]

theorem tails_take_map_headD (p : List String) :
    ∀ m, m ≤ p.length → ((p.tails.take m).map nodeKey) = p.take m := by
  induction p with
  | nil =>
    intro m hm
    have : m = 0 := Nat.le_zero.1 hm
    subst this
    simp
  | cons x xs ih =>
    intro m hm
    cases m with
    | zero => simp
    | succ m' =>
      rw [List.tails_cons]
      simp only [List.take_succ_cons, List.map_cons]
      rw [ih m' (by simpa using hm)]
      rfl

theorem tails_drop (p : List String) : ∀ i, i ≤ p.length →
    p.tails.drop i = (p.drop i).tails := by
  induction p with
  | nil =>
    intro i hi
    have : i = 0 := Nat.le_zero.1 hi
    subst this
    simp
  | cons x xs ih =>
    intro i hi
    cases i with
    | zero => simp
    | succ i' =>
      rw [List.tails_cons, List.drop_succ_cons, List.drop_succ_cons,
        ih i' (by simpa using hi)]

theorem find?_tails_first (P : NodePath → Bool) : ∀ (g u : NodePath),
    u <:+ g → P u = true →
    (∀ v, v <:+ g → u.length < v.length → P v = false) →
    g.tails.find? P = some u := by
  intro g
  induction g with
  | nil =>
    intro u hu hpu _
    have : u = [] := List.suffix_nil.mp hu
    subst this
    simp [List.find?, hpu]
  | cons x xs ih =>
    intro u hu hpu hmax
    by_cases hgu : u = x :: xs
    · subst hgu
      rw [List.tails_cons]
      simp [List.find?_cons_of_pos, hpu]
    · have hu' : u <:+ xs := by
        rcases List.suffix_cons_iff.1 hu with h | h
        · exact absurd h hgu
        · exact h
      have hPx : P (x :: xs) = false := by
        apply hmax _ List.suffix_rfl
        have hle := List.IsSuffix.length_le hu'
        simp only [List.length_cons]
        omega
      rw [List.tails_cons, List.find?_cons_of_neg _ (by simp [hPx])]
      exact ih u hu' hpu (fun v hv hlen =>
        hmax v (hv.trans (List.suffix_cons x xs)) hlen)

theorem climbLoop_spec (t : MTree) (g : NodePath)
    (rid : String) (hroot : jsTruthy (idMapLookup t []) = some rid) :
    ∀ (rest : List NodePath) (i : Nat), i ≤ g.length → rest = (g.drop i).tails →
    ∃ i₀ id₀, i ≤ i₀ ∧ i₀ ≤ g.length ∧
      jsTruthy (idMapLookup t (g.drop i₀)) = some id₀ ∧
      climbLoop t g.tails rest i = some (joinDot (("#" ++ id₀) :: (g.take i₀).reverse)) := by
  intro rest
  induction rest with
  | nil =>
    intro i _ hrest
    cases h : g.drop i with
    | nil =>
      rw [h] at hrest
      exact List.noConfusion hrest
    | cons y ys =>
      rw [h, List.tails_cons] at hrest
      exact List.noConfusion hrest
  | cons current rest' ih =>
    intro i hi hrest
    cases hdrop : g.drop i with
    | nil =>
      have hieq : i = g.length := by
        have := List.drop_eq_nil_iff.1 hdrop
        omega
      subst hieq
      rw [hdrop] at hrest
      obtain ⟨hcur, hrest'⟩ : current = [] ∧ rest' = [] := by
        have h2 : current :: rest' = [[]] := hrest
        exact ⟨(List.cons.inj h2).1, (List.cons.inj h2).2⟩
      subst hcur
      refine ⟨g.length, rid, le_refl _, le_refl _, by rw [hdrop]; exact hroot, ?_⟩
      rw [climbLoop, if_pos (Or.inr rfl), hroot,
        tails_take_map_headD g g.length (le_refl _), List.take_length]
      rfl
    | cons x xs =>
      have hlt : i < g.length := by
        by_contra hge
        have : g.drop i = [] := List.drop_eq_nil_iff.2 (by omega)
        rw [this] at hdrop
        cases hdrop
      have hcur : current = g.drop i ∧ rest' = (g.drop (i + 1)).tails := by
        rw [hdrop] at hrest
        rw [List.tails_cons] at hrest
        cases hrest
        constructor
        · rw [hdrop]
        · rw [← List.tail_drop, hdrop]
          rfl
      rcases hcur with ⟨rfl, hrest'⟩
      cases htruthy : jsTruthy (idMapLookup t (g.drop i)) with
      | some id₀ =>
        refine ⟨i, id₀, le_refl _, by omega, htruthy, ?_⟩
        rw [climbLoop]
        rw [htruthy]
        rw [if_pos (Or.inl (by simp))]
        have htake : ((g.tails.take i).map nodeKey) = g.take i :=
          tails_take_map_headD g i (by omega)
        rw [htake]
        rfl
      | none =>
        have hne : ¬(g.drop i) = [] := by rw [hdrop]; simp
        rcases ih (i + 1) (by omega) hrest' with ⟨i₀, id₀, hle, hle2, hid, hloop⟩
        refine ⟨i₀, id₀, by omega, hle2, hid, ?_⟩
        rw [climbLoop, htruthy]
        rw [if_neg (by simp [hne])]
        exact hloop

/-- A `#id`-rooted descriptor resolves to the descent from the node
declaring `id`. -/
theorem resolve_hash_descriptor (t : MTree) (source a : NodePath) (id₀ : String)
    (σ : List String)
    (hnd : (collectIds t).Nodup) (hid : idMapLookup t a = some id₀)
    (hdotid : '.' ∉ id₀.toList)
    (hσ : ∀ x ∈ σ, keyOK x = true)
    (hvalid : (subtreeAtRev t (σ.reverse ++ a)).isSome) :
    resolveTargetId t source (joinDot (("#" ++ id₀) :: σ)) = some (σ.reverse ++ a) := by
  have hhashToList : ("#" ++ id₀).toList = '#' :: id₀.toList := by
    rw [toList_append]
    rfl
  have hsplit : splitDot (joinDot (("#" ++ id₀) :: σ)) = ("#" ++ id₀) :: σ := by
    apply splitDot_joinDot _ (by simp)
    intro x hx
    rcases List.mem_cons.1 hx with rfl | hx
    · rw [hhashToList]
      intro hin
      rcases List.mem_cons.1 hin with h | h
      · cases h
      · exact hdotid h
    · exact (keyOK_spec (hσ x hx)).2.1
  have horigne : ("#" ++ id₀) ≠ "" := by
    intro h
    have := congrArg String.toList h
    rw [hhashToList] at this
    cases this
  have hstarts : startsWithHash ("#" ++ id₀) = true := by
    unfold startsWithHash
    rw [hhashToList]
    simp
  have hslice : sliceOne ("#" ++ id₀) = id₀ := by
    unfold sliceOne
    rw [hhashToList]
    exact String.asString_toList id₀
  have havalid : (subtreeAtRev t a).isSome := subtreeAtRev_isSome_of_append t _ _ hvalid
  have horigin : resolvePathOrigin t source ("#" ++ id₀) = some a := by
    unfold resolvePathOrigin
    rw [if_neg horigne, if_pos hstarts, hslice]
    rw [idToNodeIdMap_inverse t a id₀ hnd hid]
    show treeNodeLookup t a = some a
    unfold treeNodeLookup
    rw [if_pos havalid]
  rw [resolveTargetId, hsplit]
  show (match resolvePathOrigin t source ("#" ++ id₀) with
    | none => none
    | some resolvedOrigin => walkPath t resolvedOrigin σ) = some (σ.reverse ++ a)
  rw [horigin]
  show walkPath t a σ = some (σ.reverse ++ a)
  exact walkPath_spec t σ a (fun x hx => (keyOK_spec (hσ x hx)).1) hvalid

theorem idsOK_spec (t : MTree) (h : idsOK t = true) (p : NodePath) (i : String)
    (hpi : idMapLookup t p = some i) : '.' ∉ i.toList := by
  have hmem : i ∈ collectIds t := collectIds_mem t p.reverse i hpi
  have := (List.all_eq_true.1 h) i hmem
  exact of_decide_eq_true this

theorem elems_keyOK_rev (t : MTree) (p : NodePath) (hk : keysOK t = true)
    (h : (subtreeAtRev t p).isSome) : ∀ x ∈ p, keyOK x = true :=
  fun x hx => elems_keyOK t p.reverse hk h x (by simpa using hx)

theorem suffix_eq_drop {s g : List String} (h : s <:+ g) :
    g.drop (g.length - s.length) = s := by
  rcases h with ⟨u, rfl⟩
  have : (u ++ s).length - s.length = u.length := by
    rw [List.length_append]
    omega
  rw [this, List.drop_left]

/-- A `.`-led (descending) descriptor resolves from the source downward. -/
theorem resolve_rel_descriptor (t : MTree) (source : NodePath) (σ : List String)
    (hσ : ∀ x ∈ σ, keyOK x = true)
    (hsrc : (subtreeAtRev t source).isSome)
    (hvalid : (subtreeAtRev t (σ.reverse ++ source)).isSome) :
    resolveTargetId t source (joinDot ("" :: σ)) = some (σ.reverse ++ source) := by
  have hsplit : splitDot (joinDot ("" :: σ)) = "" :: σ := by
    apply splitDot_joinDot _ (by simp)
    intro x hx
    rcases List.mem_cons.1 hx with rfl | hx
    · simp
    · exact (keyOK_spec (hσ x hx)).2.1
  rw [resolveTargetId, hsplit]
  have horigin : resolvePathOrigin t source "" = some source := by
    unfold resolvePathOrigin
    rw [if_pos rfl]
    unfold treeNodeLookup
    rw [if_pos hsrc]
  show (match resolvePathOrigin t source "" with
    | none => none
    | some resolvedOrigin => walkPath t resolvedOrigin σ) = some (σ.reverse ++ source)
  rw [horigin]
  show walkPath t source σ = some (σ.reverse ++ source)
  exact walkPath_spec t σ source (fun x hx => (keyOK_spec (hσ x hx)).1) hvalid

/-- A plain (sibling-rooted) descriptor resolves from the source's parent
downward. -/
theorem resolve_sib_descriptor (t : MTree) (source : NodePath) (σ : List String)
    (hne : σ ≠ []) (hσ : ∀ x ∈ σ, keyOK x = true)
    (hsne : source ≠ [])
    (hvalid : (subtreeAtRev t (σ.reverse ++ source.tail)).isSome) :
    resolveTargetId t source (joinDot σ) = some (σ.reverse ++ source.tail) := by
  cases σ with
  | nil => exact absurd rfl hne
  | cons o rest =>
    cases source with
    | nil => exact absurd rfl hsne
    | cons hd ptail =>
      have hsplit : splitDot (joinDot (o :: rest)) = o :: rest := by
        apply splitDot_joinDot _ (by simp)
        intro x hx
        exact (keyOK_spec (hσ x hx)).2.1
      have hoK := keyOK_spec (hσ o (List.mem_cons_self o rest))
      have hperm : (o :: rest).reverse ++ (hd :: ptail).tail = rest.reverse ++ (o :: ptail) := by
        simp
      have hvalid' : (subtreeAtRev t (o :: ptail)).isSome := by
        rw [hperm] at hvalid
        exact subtreeAtRev_isSome_of_append t _ _ hvalid
      have horigin : resolvePathOrigin t (hd :: ptail) o = some (o :: ptail) := by
        unfold resolvePathOrigin
        rw [if_neg hoK.1, if_neg (by
          simp only [startsWithHash, decide_eq_true_eq]
          exact hoK.2.2)]
        rw [← childAtRev_eq] at hvalid'
        cases hc : childAtRev t ptail o with
        | none => rw [hc] at hvalid'; simp at hvalid'
        | some c =>
          show (match childAtRev t ptail o with
            | some _ => some (o :: ptail)
            | none => none) = some (o :: ptail)
          rw [hc]
      rw [resolveTargetId, hsplit]
      show (match resolvePathOrigin t (hd :: ptail) o with
        | none => none
        | some resolvedOrigin => walkPath t resolvedOrigin rest) =
          some ((o :: rest).reverse ++ (hd :: ptail).tail)
      rw [horigin, hperm]
      show walkPath t (o :: ptail) rest = some (rest.reverse ++ (o :: ptail))
      refine walkPath_spec t rest (o :: ptail)
        (fun x hx => (keyOK_spec (hσ x (List.mem_cons_of_mem _ hx))).1) ?_
      rw [← hperm]
      exact hvalid

/-- Evaluate `getBestTargetDescriptor` past its common-ancestor search. -/
theorem getBestTargetDescriptor_eq (t : MTree) (source target : NodePath)
    (htg : target ≠ []) (hst : source ≠ target) (u : NodePath)
    (hfind : (getPathNodes target).find? (fun a => decide (a ∈ getPathNodes source)) = some u) :
    getBestTargetDescriptor t source target =
      (if u = source then
        some ("." ++
          joinDot (((sliceDropEnd (getPathNodes target) (getPathNodes source).length).map nodeKey).reverse))
      else if source ≠ [] ∧ u = source.tail then
        some
          (joinDot (((sliceDropEnd (getPathNodes target) ((getPathNodes source).length - 1)).map nodeKey).reverse))
      else
        match jsTruthy (idMapLookup t target) with
        | some id => some ("#" ++ id)
        | none => climbLoop t (getPathNodes target) (getPathNodes target) 0) := by
  simp only [getBestTargetDescriptor]
  rw [if_neg htg, if_neg hst, hfind]

/-- C2 (amended): over a well-formed tree whose root carries a truthy
declared id, resolving the synthesized descriptor yields exactly the
target for every pair except a target that is the parent of a source
nested two or more levels deep. -/
theorem resolveTargetId_getBestTargetDescriptor (t : MTree) (source target : NodePath)
    (hkeys : keysOK t = true) (hids : idsOK t = true)
    (hnd : (collectIds t).Nodup)
    (hroot : (jsTruthy (idMapLookup t [])).isSome)
    (hs : (subtreeAtRev t source).isSome) (ht : (subtreeAtRev t target).isSome)
    (hexcl : ¬(2 ≤ source.length ∧ target = source.tail)) :
    ∃ d, getBestTargetDescriptor t source target = some d ∧
      resolveTargetId t source d = some target := by
  rcases Option.isSome_iff_exists.1 hroot with ⟨rid, hrid⟩
  by_cases htg : target = []
  · -- target is the root: absolute `#rootId`
    subst htg
    refine ⟨"#" ++ rid, ?_, ?_⟩
    · unfold getBestTargetDescriptor
      rw [if_pos rfl, hrid]
      rfl
    · rcases jsTruthy_some hrid with ⟨hid, _⟩
      have hdot : '.' ∉ rid.toList := idsOK_spec t hids [] rid hid
      have := resolve_hash_descriptor t source [] rid [] hnd hid hdot
        (fun x hx => absurd hx (List.not_mem_nil x)) (by simpa using ht)
      rw [joinDot_singleton] at this
      simpa using this
  by_cases hst : source = target
  · -- self transition: descriptor is the node's own key
    subst hst
    cases hsource : source with
    | nil => exact absurd hsource htg
    | cons k ptail =>
      subst hsource
      refine ⟨nodeKey (k :: ptail), ?_, ?_⟩
      · unfold getBestTargetDescriptor
        rw [if_neg htg, if_pos rfl]
      · have hkok : keyOK k = true :=
          elems_keyOK_rev t (k :: ptail) hkeys hs k (List.mem_cons_self k ptail)
        have := resolve_sib_descriptor t (k :: ptail) [k] (by simp)
          (by intro x hx; rcases List.mem_cons.1 hx with rfl | hx
              · exact hkok
              · cases hx)
          (by simp) (by simpa using hs)
        rw [joinDot_singleton] at this
        simpa using this
  by_cases hsub : source <:+ target
  · -- the source is a proper ancestor of the target: `.a.b` descriptor
    have hslt : source.length < target.length := by
      have hle := List.IsSuffix.length_le hsub
      rcases Nat.lt_or_ge source.length target.length with h | h
      · exact h
      · exact absurd (List.IsSuffix.eq_of_length hsub (by omega)) hst
    have hfind : (getPathNodes target).find? (fun a => decide (a ∈ getPathNodes source)) =
        some source := by
      simp only [getPathNodes_eq_tails]
      apply find?_tails_first _ target source hsub
      · exact decide_eq_true ((List.mem_tails source source).2 List.suffix_rfl)
      · intro v hv hlen
        apply decide_eq_false
        intro hvmem
        have hvs := (List.mem_tails v source).1 hvmem
        have := List.IsSuffix.length_le hvs
        omega
    have hdrop : target.drop (target.length - source.length) = source := suffix_eq_drop hsub
    have hσeq :
        ((sliceDropEnd (getPathNodes target) (getPathNodes source).length).map nodeKey).reverse =
          (target.take (target.length - source.length)).reverse := by
      rw [getPathNodes_eq_tails, getPathNodes_eq_tails]
      unfold sliceDropEnd
      rw [List.length_tails, List.length_tails,
        show target.length + 1 - (source.length + 1) = target.length - source.length by omega,
        tails_take_map_headD target _ (by omega)]
    rw [getBestTargetDescriptor_eq t source target htg hst source hfind, if_pos rfl, hσeq]
    have htake_ne : (target.take (target.length - source.length)).reverse ≠ [] := by
      simp only [ne_eq, List.reverse_eq_nil_iff, List.take_eq_nil_iff]
      push_neg
      constructor
      · omega
      · exact htg
    refine ⟨_, rfl, ?_⟩
    rw [dot_append_joinDot _ htake_ne]
    have hrecomb : (target.take (target.length - source.length)).reverse.reverse ++ source =
        target := by
      rw [List.reverse_reverse]
      nth_rewrite 2 [← hdrop]
      rw [List.take_append_drop]
    have := resolve_rel_descriptor t source ((target.take (target.length - source.length)).reverse)
      (fun x hx => elems_keyOK_rev t target hkeys ht x
        (List.take_subset _ target (by simpa using hx)))
      hs (by rw [hrecomb]; exact ht)
    rw [hrecomb] at this
    exact this
  have hsne : source ≠ [] := fun h => hsub (h ▸ List.nil_suffix)
  have hslen : 1 ≤ source.length := by
    cases source with
    | nil => exact absurd rfl hsne
    | cons a as => simp
  by_cases hsib : source.tail <:+ target
  · -- common ancestor is the source's parent: sibling-rooted descriptor
    have hgne : target ≠ source.tail := by
      intro h
      apply hexcl
      refine ⟨?_, h⟩
      have h1 : target.length = source.length - 1 := by
        rw [h, List.length_tail]
      have h2 : 1 ≤ target.length := by
        cases htarget : target with
        | nil => exact absurd htarget htg
        | cons b bs => simp
      omega
    have htlen : source.tail.length < target.length := by
      have hle := List.IsSuffix.length_le hsib
      rcases Nat.lt_or_ge source.tail.length target.length with h | h
      · exact h
      · exact absurd (List.IsSuffix.eq_of_length hsib (by omega)).symm hgne
    have hfind : (getPathNodes target).find? (fun a => decide (a ∈ getPathNodes source)) =
        some source.tail := by
      simp only [getPathNodes_eq_tails]
      apply find?_tails_first _ target source.tail hsib
      · exact decide_eq_true ((List.mem_tails _ _).2 (List.tail_suffix source))
      · intro v hv hlen
        apply decide_eq_false
        intro hvmem
        have hvs := (List.mem_tails v source).1 hvmem
        have hvle := List.IsSuffix.length_le hvs
        rw [List.length_tail] at hlen
        have hveq : v = source := List.IsSuffix.eq_of_length hvs (by omega)
        subst hveq
        exact hsub hv
    have htailne : source.tail ≠ source := by
      intro h
      have := congrArg List.length h
      rw [List.length_tail] at this
      omega
    rw [getBestTargetDescriptor_eq t source target htg hst source.tail hfind,
      if_neg htailne, if_pos ⟨hsne, rfl⟩]
    have hk'le : target.length + 1 - source.length ≤ target.length := by
      rw [List.length_tail] at htlen
      omega
    have hdrop : target.drop (target.length + 1 - source.length) = source.tail := by
      have h0 := suffix_eq_drop hsib
      rw [List.length_tail] at h0
      rw [show target.length + 1 - source.length = target.length - (source.length - 1) by omega]
      exact h0
    have hσeq :
        ((sliceDropEnd (getPathNodes target) ((getPathNodes source).length - 1)).map
          nodeKey).reverse =
          (target.take (target.length + 1 - source.length)).reverse := by
      rw [getPathNodes_eq_tails, getPathNodes_eq_tails]
      unfold sliceDropEnd
      rw [List.length_tails, List.length_tails,
        show target.length + 1 - (source.length + 1 - 1) = target.length + 1 - source.length
          by omega,
        tails_take_map_headD target _ hk'le]
    rw [hσeq]
    refine ⟨_, rfl, ?_⟩
    have hrecomb :
        (target.take (target.length + 1 - source.length)).reverse.reverse ++ source.tail =
          target := by
      rw [List.reverse_reverse, ← hdrop, List.take_append_drop]
    have := resolve_sib_descriptor t source
      ((target.take (target.length + 1 - source.length)).reverse)
      (by
        simp only [ne_eq, List.reverse_eq_nil_iff, List.take_eq_nil_iff]
        push_neg
        constructor
        · rw [List.length_tail] at htlen
          omega
        · exact htg)
      (fun x hx => elems_keyOK_rev t target hkeys ht x
        (List.take_subset _ target (by simpa using hx)))
      hsne (by rw [hrecomb]; exact ht)
    rw [hrecomb] at this
    exact this
  · -- no relative form: absolute `#id` (short-circuit) or climb
    have hfindsome :
        ((getPathNodes target).find? (fun a => decide (a ∈ getPathNodes source))).isSome := by
      simp only [getPathNodes_eq_tails]
      exact List.find?_isSome.2 ⟨[], (List.mem_tails _ _).2 List.nil_suffix,
        decide_eq_true ((List.mem_tails _ _).2 List.nil_suffix)⟩
    rcases Option.isSome_iff_exists.1 hfindsome with ⟨c, hfind⟩
    have hcg : c <:+ target := by
      have := List.mem_of_find?_eq_some hfind
      rw [getPathNodes_eq_tails] at this
      exact (List.mem_tails _ _).1 this
    have hcs : c <:+ source := by
      have := List.find?_some hfind
      have hmem := of_decide_eq_true this
      rw [getPathNodes_eq_tails] at hmem
      exact (List.mem_tails _ _).1 hmem
    have hcns : c ≠ source := fun h => hsub (h ▸ hcg)
    have hcnt : ¬(source ≠ [] ∧ c = source.tail) := fun h => hsib (h.2 ▸ hcg)
    rw [getBestTargetDescriptor_eq t source target htg hst c hfind, if_neg hcns, if_neg hcnt]
    cases hidg : jsTruthy (idMapLookup t target) with
    | some id₀ =>
      rcases jsTruthy_some hidg with ⟨hid, _⟩
      refine ⟨"#" ++ id₀, rfl, ?_⟩
      have := resolve_hash_descriptor t source target id₀ [] hnd hid
        (idsOK_spec t hids target id₀ hid)
        (fun x hx => absurd hx (List.not_mem_nil x)) (by simpa using ht)
      rw [joinDot_singleton] at this
      simpa using this
    | none =>
      rcases climbLoop_spec t target rid hrid target.tails 0 (Nat.zero_le _)
          (by rw [List.drop_zero]) with ⟨i₀, id₀, _, hi₀le, hid, hloop⟩
      rw [getPathNodes_eq_tails]
      refine ⟨_, hloop, ?_⟩
      rcases jsTruthy_some hid with ⟨hid', _⟩
      have hrecomb : (target.take i₀).reverse.reverse ++ target.drop i₀ = target := by
        rw [List.reverse_reverse, List.take_append_drop]
      have := resolve_hash_descriptor t source (target.drop i₀) id₀ ((target.take i₀).reverse)
        hnd hid' (idsOK_spec t hids _ _ hid')
        (fun x hx => elems_keyOK_rev t target hkeys ht x
          (List.take_subset _ target (by simpa using hx)))
        (by rw [hrecomb]; exact ht)
      rw [hrecomb] at this
      exact this

/-- The tree of `createMachine({states: {a: {states: {b: {}}}}})`: no
declared ids anywhere. -/
def exTreeNoId : MTree := .node none [("a", .node none [("b", .node none [])])]

/-- A well-formed example tree with a declared root id. -/
def exTreeW : MTree :=
  .node (some "root")
    [("a", .node none [("b", .node (some "x") [])]), ("c", .node none [])]

/-- C2 as stated fails: with source `a.b` and target `a` (the source's
parent), the synthesizer emits the descriptor `""`, which resolves back to
the source — not to the target. -/
theorem c2_counterexample :
    (subtreeAtRev exTreeNoId ["b", "a"]).isSome = true ∧
    (subtreeAtRev exTreeNoId ["a"]).isSome = true ∧
    getBestTargetDescriptor exTreeNoId ["b", "a"] ["a"] = some "" ∧
    resolveTargetId exTreeNoId ["b", "a"] "" = some ["b", "a"] ∧
    resolveTargetId exTreeNoId ["b", "a"] "" ≠ some ["a"] := by
  refine ⟨rfl, rfl, ?_, ?_, ?_⟩ <;> decide

/-- Witness: the amended C2 applied to a concrete tree and pair. -/
theorem c2_theorem_witness :
    ∃ d, getBestTargetDescriptor exTreeW ["c"] ["b", "a"] = some d ∧
      resolveTargetId exTreeW ["c"] d = some ["b", "a"] :=
  resolveTargetId_getBestTargetDescriptor exTreeW ["c"] ["b", "a"]
    (by decide) (by decide) (by decide) (by decide) (by decide) (by decide) (by decide)

/-! ## `resolveTargets`: per-target resolution with error recording -/

inductive ExtractionError where
  | state_unhandled
  | state_property_unhandled
  | state_property_invalid
  | state_type_invalid
  | state_history_invalid
  | transition_property_unhandled
  | transition_target_unresolved
  | action_unhandled
  | property_key_unhandled
  | property_key_no_roundtrip
  | property_unhandled
deriving DecidableEq, Repr

/-- `resolveTargetId` together with the errors it pushes: exactly one
`transition_target_unresolved` on any failing path. -/
def resolveTargetIdE (t : MTree) (source : NodePath) (target : String) :
    Option NodePath × List ExtractionError :=
  match resolveTargetId t source target with
  | some p => (some p, [])
  | none => (none, [.transition_target_unresolved])

/-- The body of `resolveTargets` for one edge: walk the edge's raw target
strings in order; a successful resolution is appended to `targets`, a
failing one additionally records `transition_property_unhandled` and is
dropped. -/
def resolveTargets (t : MTree) (source : NodePath) :
    List String → List NodePath × List ExtractionError
  | [] => ([], [])
  | tg :: rest =>
    let next := resolveTargets t source rest
    match resolveTargetIdE t source tg with
    | (some p, errs) => (p :: next.1, errs ++ next.2)
    | (none, errs) => (next.1, errs ++ [.transition_property_unhandled] ++ next.2)

/-- C3: origin resolution semantics and the per-target drop/record policy:
an empty origin is the edge's own source node; a `#`-origin goes through
the declared-id map (and, with duplicate-free ids, reaches exactly the
declaring node); any other origin is a sibling lookup in the parent's
children map, failing when the source is the parentless root; and
`resolveTargets` keeps exactly the resolvable targets (in order), recording
`transition_target_unresolved` for each failing one. -/
theorem resolution_origin_and_drop_policy :
    (∀ (t : MTree) (source : NodePath), (subtreeAtRev t source).isSome →
      resolvePathOrigin t source "" = some source) ∧
    (∀ (t : MTree) (source p : NodePath) (i : String), (collectIds t).Nodup →
      idMapLookup t p = some i →
      resolvePathOrigin t source ("#" ++ i) = some p) ∧
    (∀ (t : MTree) (origin : String), origin ≠ "" → startsWithHash origin = false →
      resolvePathOrigin t [] origin = none) ∧
    (∀ (t : MTree) (hd : String) (ptail : NodePath) (origin : String) (c : MTree),
      origin ≠ "" → startsWithHash origin = false →
      childAtRev t ptail origin = some c →
      resolvePathOrigin t (hd :: ptail) origin = some (origin :: ptail)) ∧
    (∀ (t : MTree) (hd : String) (ptail : NodePath) (origin : String),
      origin ≠ "" → startsWithHash origin = false →
      childAtRev t ptail origin = none →
      resolvePathOrigin t (hd :: ptail) origin = none) ∧
    (∀ (t : MTree) (source : NodePath) (targets : List String),
      (resolveTargets t source targets).1 = targets.filterMap (resolveTargetId t source) ∧
      (∀ tg ∈ targets, resolveTargetId t source tg = none →
        ExtractionError.transition_target_unresolved ∈ (resolveTargets t source targets).2)) := by
  refine ⟨?_, ?_, ?_, ?_, ?_, ?_⟩
  · intro t source hsrc
    unfold resolvePathOrigin treeNodeLookup
    rw [if_pos rfl, if_pos hsrc]
  · intro t source p i hnd hp
    have hhashToList : ("#" ++ i).toList = '#' :: i.toList := by
      rw [toList_append]; rfl
    have horigne : ("#" ++ i) ≠ "" := by
      intro h
      have := congrArg String.toList h
      rw [hhashToList] at this
      cases this
    have hstarts : startsWithHash ("#" ++ i) = true := by
      simp only [startsWithHash, hhashToList]
      simp
    have hslice : sliceOne ("#" ++ i) = i := by
      unfold sliceOne
      rw [hhashToList]
      exact String.asString_toList i
    have hvalid : (subtreeAtRev t p).isSome := by
      unfold idMapLookup at hp
      cases h : subtreeAtRev t p with
      | none => rw [h] at hp; simp at hp
      | some s => simp
    unfold resolvePathOrigin
    rw [if_neg horigne, if_pos hstarts, hslice,
      idToNodeIdMap_inverse t p i hnd hp]
    show treeNodeLookup t p = some p
    unfold treeNodeLookup
    rw [if_pos hvalid]
  · intro t origin hne hhash
    unfold resolvePathOrigin
    rw [if_neg hne, if_neg (by simp [hhash])]
  · intro t hd ptail origin c hne hhash hchild
    unfold resolvePathOrigin
    rw [if_neg hne, if_neg (by simp [hhash])]
    show (match childAtRev t ptail origin with
      | some _ => some (origin :: ptail)
      | none => none) = some (origin :: ptail)
    rw [hchild]
  · intro t hd ptail origin hne hhash hchild
    unfold resolvePathOrigin
    rw [if_neg hne, if_neg (by simp [hhash])]
    show (match childAtRev t ptail origin with
      | some _ => some (origin :: ptail)
      | none => none) = none
    rw [hchild]
  · intro t source targets
    induction targets with
    | nil => exact ⟨rfl, by intro tg h; cases h⟩
    | cons tg rest ih =>
      unfold resolveTargets resolveTargetIdE
      constructor
      · cases h : resolveTargetId t source tg with
        | some p => simp [h, ih.1]
        | none => simp [h, ih.1]
      · intro tg' htg' hres
        rcases List.mem_cons.1 htg' with rfl | htg'
        · rw [hres]
          cases h2 : resolveTargetId t source tg' <;> simp [hres] at h2 ⊢
        · have := ih.2 tg' htg' hres
          cases h : resolveTargetId t source tg <;> simp [h, this]

/-- Witness for the resolution-policy conjunction at concrete inputs. -/
theorem resolution_origin_and_drop_policy_witness :
    resolvePathOrigin exTreeW ["a"] "" = some ["a"] ∧
    resolvePathOrigin exTreeW ["c"] "#x" = some ["b", "a"] ∧
    resolvePathOrigin exTreeW [] "q" = none ∧
    resolvePathOrigin exTreeW ["b", "a"] "c" = none ∧
    resolvePathOrigin exTreeW ["a"] "c" = some ["c"] ∧
    (resolveTargets exTreeW ["c"] ["a.b", "missing", "#root"]).1 =
      ["a.b", "missing", "#root"].filterMap (resolveTargetId exTreeW ["c"]) ∧
    ExtractionError.transition_target_unresolved ∈
      (resolveTargets exTreeW ["c"] ["a.b", "missing", "#root"]).2 := by
  refine ⟨?_, ?_, ?_, ?_, ?_, ?_, ?_⟩
  · exact resolution_origin_and_drop_policy.1 exTreeW ["a"] (by decide)
  · exact resolution_origin_and_drop_policy.2.1 exTreeW ["c"] ["b", "a"] "x" (by decide) (by decide)
  · exact resolution_origin_and_drop_policy.2.2.1 exTreeW "q" (by decide) (by decide)
  · exact resolution_origin_and_drop_policy.2.2.2.2.1 exTreeW "b" ["a"] "c" (by decide) (by decide)
      (by rfl)
  · exact resolution_origin_and_drop_policy.2.2.2.1 exTreeW "a" [] "c"
      (.node none []) (by decide) (by decide) (by rfl)
  · exact (resolution_origin_and_drop_policy.2.2.2.2.2 exTreeW ["c"]
      ["a.b", "missing", "#root"]).1
  · exact (resolution_origin_and_drop_policy.2.2.2.2.2 exTreeW ["c"]
      ["a.b", "missing", "#root"]).2 "missing" (by decide) (by decide)

/-! ## `state.ts` extraction over an embedded TypeScript-expression AST

The extraction engine only inspects the literal shapes below (string-like
literals, numeric/boolean/null literals, the `undefined` identifier, other
identifiers, object/array literals, function expressions); everything else
is `other`.  Property names are either extractable literals (`lit`) or the
kinds `getPropertyKey` rejects (`bad` = computed non-literal / private
name). -/

namespace Extract

inductive PropKey where
  | lit (s : String)
  | bad
deriving DecidableEq, Repr

mutual
inductive TsExpr where
  | str (s : String)
  | num (n : Int)
  | bool (b : Bool)
  | nul
  | undef
  | ident (name : String)
  | obj (props : List TsProp)
  | arr (elems : List TsExpr)
  | fn
  | other
inductive TsProp where
  | assign (key : PropKey) (value : TsExpr)
  | shorthand
  | spread
  | method
end

inductive JsonValue where
  | str (s : String)
  | num (n : Int)
  | bool (b : Bool)
  | null
  | arr (items : List JsonValue)
  | obj (entries : List (String × JsonValue))

inductive EventTypeData where
  | named (eventType : String)
  | wildcard
  | always
  | stateDone
  | invocationDone (invocationId : Nat)
  | invocationError (invocationId : Nat)
  | after
  | init
deriving DecidableEq, Repr

structure NodeData where
  initial : Option String := none
  type : String := "normal"
  history : Option String := none
  metaEntries : List (String × Option JsonValue) := []
  entry : List Nat := []
  exit : List Nat := []
  invoke : List Nat := []
  tags : List String := []
  description : Option String := none

structure EdgeData where
  source : Nat
  targets : List Nat := []
  eventTypeData : EventTypeData
  actions : List Nat := []
  guard : Option Nat := none
  description : Option String := none
  internal : Bool := true
deriving DecidableEq, Repr

inductive BlockProps where
  | action (type : String)
  | actor (src : String) (id : String)
deriving DecidableEq, Repr

structure Block where
  blockType : String
  uniqueId : Nat
  parentId : Nat
  sourceId : String
  properties : BlockProps
deriving DecidableEq, Repr

structure TreeNodeData where
  parentId : Option Nat := none
  children : List (String × Nat) := []
deriving DecidableEq, Repr

/-- `digraph.data.context`: a JSON object or the `{{…}}` marker wrapping an
inline function body. -/
inductive ContextData where
  | json (v : JsonValue)
  | fnMarker

structure ExtractionContext where
  counter : Nat := 0
  errors : List ExtractionError := []
  nodes : List (Nat × NodeData) := []
  edges : List (Nat × EdgeData) := []
  blocks : List (Nat × Block) := []
  actionImpls : List String := []
  actorImpls : List String := []
  idMap : List (String × Nat) := []
  treeNodes : List (Nat × TreeNodeData) := []
  originalTargets : List (Nat × List String) := []
  dataContext : ContextData := .json (.obj [])

/-- JS object assignment `m[k] = v`: overwrite in place or append. -/
def setAssoc {α : Type} (l : List (String × α)) (k : String) (v : α) :
    List (String × α) :=
  if l.any (fun e => e.1 == k) then
    l.map (fun e => if e.1 == k then (k, v) else e)
  else l ++ [(k, v)]

def getAssoc {α : Type} (l : List (Nat × α)) (k : Nat) : Option α :=
  (l.find? (fun e => e.1 == k)).map (fun e => e.2)

def pushError (ctx : ExtractionContext) (e : ExtractionError) : ExtractionContext :=
  { ctx with errors := ctx.errors ++ [e] }

def pushErrors (ctx : ExtractionContext) (es : List ExtractionError) : ExtractionContext :=
  { ctx with errors := ctx.errors ++ es }

/-- `uniqueId()`, modelled by the context counter. -/
def takeId (ctx : ExtractionContext) : Nat × ExtractionContext :=
  (ctx.counter, { ctx with counter := ctx.counter + 1 })

/-- `getPropertyKey(ctx, ts, prop)` on the property-name shapes. -/
def getPropertyKey : PropKey → Option String × List ExtractionError
  | .lit s => (some s, [])
  | .bad => (none, [.property_key_unhandled])

/-- `isUndefined`: an identifier named `undefined` (the `undef` shape). -/
def isUndefined : TsExpr → Bool
  | .undef => true
  | _ => false

/-- `undefined` or `null` (forbidden transition targets). -/
def isForbiddenTarget (e : TsExpr) : Bool :=
  isUndefined e || (e matches .nul)

def isStringLiteralLike : TsExpr → Bool
  | .str _ => true
  | _ => false

def everyDefined {α : Type} (l : List (Option α)) : Bool :=
  l.all (fun o => o.isSome)

/-- The reverse scan of `findProperty` (the input list is already
reversed, so the head is the syntactically last property). -/
def findPropertyRev (key : String) : List TsProp → Option TsExpr × List ExtractionError
  | [] => (none, [])
  | .assign k v :: rest =>
    match getPropertyKey k with
    | (some s, errs) =>
      if s = key then (some v, errs)
      else
        let r := findPropertyRev key rest
        (r.1, errs ++ r.2)
    | (none, errs) =>
      let r := findPropertyRev key rest
      (r.1, errs ++ r.2)
  | _ :: rest => findPropertyRev key rest

/-- `findProperty(ctx, ts, obj, key)`: last-declared property assignment
with the given key. -/
def findProperty (props : List TsProp) (key : String) :
    Option TsExpr × List ExtractionError :=
  findPropertyRev key props.reverse

mutual
/-- `getJsonValue(ctx, ts, prop)`. -/
def getJsonValue : TsExpr → Option JsonValue × List ExtractionError
  | .str s => (some (.str s), [])
  | .num n => (some (.num n), [])
  | .bool b => (some (.bool b), [])
  | .nul => (some .null, [])
  | .arr elems =>
    match getJsonArr elems with
    | (some items, errs) => (some (.arr items), errs)
    | (none, errs) => (none, errs)
  | .obj props =>
    match getJsonObjectGo [] props with
    | (some entries, errs) => (some (.obj entries), errs)
    | (none, errs) => (none, errs)
  | _ => (none, [])
/-- Array part of `getJsonValue`: the whole array is dropped when an item
cannot be extracted. -/
def getJsonArr : List TsExpr → Option (List JsonValue) × List ExtractionError
  | [] => (some [], [])
  | e :: rest =>
    match getJsonValue e with
    | (none, errs) => (none, errs)
    | (some v, errs) =>
      match getJsonArr rest with
      | (none, errs2) => (none, errs ++ errs2)
      | (some vs, errs2) => (some (v :: vs), errs ++ errs2)
/-- `getJsonObject` over the property list (forward, last write wins);
a value that cannot be extracted drops the whole object. -/
def getJsonObjectGo (acc : List (String × JsonValue)) :
    List TsProp → Option (List (String × JsonValue)) × List ExtractionError
  | [] => (some acc, [])
  | .assign key value :: rest =>
    match getPropertyKey key with
    | (some k, errs) =>
      if k = "" then
        let r := getJsonObjectGo acc rest
        (r.1, errs ++ r.2)
      else
        match getJsonValue value with
        | (none, errs2) => (none, errs ++ errs2)
        | (some v, errs2) =>
          let r := getJsonObjectGo (setAssoc acc k v) rest
          (r.1, errs ++ errs2 ++ r.2)
    | (none, errs) =>
      let r := getJsonObjectGo acc rest
      (r.1, errs ++ r.2)
  | _ :: rest => getJsonObjectGo acc rest
end

def getJsonObject (props : List TsProp) :
    Option (List (String × JsonValue)) × List ExtractionError :=
  getJsonObjectGo [] props

end Extract

namespace Extract

def createActionBlock (sourceId : String) (parentId : Nat)
    (ctx : ExtractionContext) : Block × ExtractionContext :=
  let r := takeId ctx
  ({ blockType := "action", uniqueId := r.1, parentId := parentId,
     sourceId := sourceId, properties := .action sourceId }, r.2)

def createActorBlock (sourceId : String) (parentId : Nat) (actorId : String)
    (ctx : ExtractionContext) : Block × ExtractionContext :=
  let r := takeId ctx
  ({ blockType := "actor", uniqueId := r.1, parentId := parentId,
     sourceId := sourceId, properties := .actor sourceId actorId }, r.2)

def createEdge (ctx : ExtractionContext) (sourceId : Nat)
    (eventTypeData : EventTypeData) : (Nat × EdgeData) × ExtractionContext :=
  let r := takeId ctx
  ((r.1, { source := sourceId, eventTypeData := eventTypeData }), r.2)

def mapElemsGo {α : Type} (cb : ExtractionContext → TsExpr → α × ExtractionContext) :
    ExtractionContext → List TsExpr → List α × ExtractionContext
  | ctx, [] => ([], ctx)
  | ctx, e :: rest =>
    let r := cb ctx e
    let rs := mapElemsGo cb r.2 rest
    (r.1 :: rs.1, rs.2)

/-- `mapMaybeArrayElements(ts, expression, cb)`. -/
def mapMaybeArrayElements {α : Type} (ctx : ExtractionContext) (expression : TsExpr)
    (cb : ExtractionContext → TsExpr → α × ExtractionContext) :
    List α × ExtractionContext :=
  match expression with
  | .arr elems => mapElemsGo cb ctx elems
  | e =>
    let r := cb ctx e
    ([r.1], r.2)

/-- The callback of `extractActionBlocks`. -/
def actionBlockOfElement (parentId : Nat) (ctx : ExtractionContext)
    (element : TsExpr) : Option Block × ExtractionContext :=
  if isUndefined element then
    (none, ctx)
  else
    match element with
    | .str s =>
      let r := createActionBlock s parentId ctx
      (some r.1, r.2)
    | .obj props =>
      let f := findProperty props "type"
      let ctx := pushErrors ctx f.2
      match f.1 with
      | none => (none, ctx)
      | some (.str s) =>
        let r := createActionBlock s parentId ctx
        (some r.1, r.2)
      | some _ =>
        let ctx := pushError ctx .action_unhandled
        let i := takeId ctx
        let r := createActionBlock ("inline:" ++ toString i.1) parentId i.2
        (some r.1, r.2)
    | _ =>
      let i := takeId ctx
      let r := createActionBlock ("inline:" ++ toString i.1) parentId i.2
      (some r.1, r.2)

def extractActionBlocks (ctx : ExtractionContext) (expression : TsExpr)
    (parentId : Nat) : List (Option Block) × ExtractionContext :=
  mapMaybeArrayElements ctx expression (actionBlockOfElement parentId)

def registerActionBlocks (ctx : ExtractionContext) (blocks : List Block)
    (parentContainer : List Nat) : List Nat × ExtractionContext :=
  match blocks with
  | [] => (parentContainer, ctx)
  | b :: rest =>
    let container := parentContainer ++ [b.uniqueId]
    let ctx := { ctx with
      blocks := ctx.blocks ++ [(b.uniqueId, b)],
      actionImpls := if ctx.actionImpls.contains b.sourceId then ctx.actionImpls
        else ctx.actionImpls ++ [b.sourceId] }
    registerActionBlocks ctx rest container

/-- `getObjectTransitionTargets(ctx, ts, transition)`: `none` means
"treated as a targetless transition". -/
def getObjectTransitionTargets (ctx : ExtractionContext) (props : List TsProp) :
    Option (List (Option String)) × ExtractionContext :=
  let f := findProperty props "target"
  let ctx := pushErrors ctx f.2
  match f.1 with
  | none => (none, ctx)
  | some init =>
    if isForbiddenTarget init then (none, ctx)
    else
      let r := mapMaybeArrayElements ctx init (fun ctx e =>
        (match e with | .str s => some s | _ => none, ctx))
      (some r.1, r.2)

/-- The reverse property scan inside the object-literal branch of the
edge-group callback (`actions` / `description`; duplicate keys skipped). -/
def processEdgeProps (edgeId : Nat) :
    ExtractionContext → EdgeData → List String → List TsProp →
      EdgeData × ExtractionContext
  | ctx, edge, _, [] => (edge, ctx)
  | ctx, edge, seen, prop :: rest =>
    match prop with
    | .assign key value =>
      let g := getPropertyKey key
      let ctx := pushErrors ctx g.2
      match jsTruthy g.1 with
      | none =>
        processEdgeProps edgeId (pushError ctx .transition_property_unhandled) edge seen rest
      | some k =>
        if seen.contains k then processEdgeProps edgeId ctx edge seen rest
        else
          if k = "actions" then
            let b := extractActionBlocks ctx value edgeId
            if !(everyDefined b.1) then
              processEdgeProps edgeId (pushError b.2 .transition_property_unhandled) edge
                (k :: seen) rest
            else
              let r := registerActionBlocks b.2 (b.1.filterMap id) edge.actions
              processEdgeProps edgeId r.2 { edge with actions := r.1 } (k :: seen) rest
          else if k = "description" then
            processEdgeProps edgeId ctx
              { edge with description := match value with | .str s => some s | _ => none }
              (k :: seen) rest
          else
            processEdgeProps edgeId ctx edge (k :: seen) rest
    | _ =>
      processEdgeProps edgeId (pushError ctx .transition_property_unhandled) edge seen rest

/-- The per-element callback of `extractEdgeGroup`: `none` models a
transition element that fails to produce an edge. -/
def edgeElementOf (sourceId : Nat) (eventTypeData : EventTypeData)
    (ctx : ExtractionContext) (element : TsExpr) :
    Option ((Nat × EdgeData) × Option (List String)) × ExtractionContext :=
  if isForbiddenTarget element then
    let e := createEdge ctx sourceId eventTypeData
    (some (e.1, none), e.2)
  else
    match element with
    | .str s =>
      let e := createEdge ctx sourceId eventTypeData
      (some (e.1, some [s]), e.2)
    | .obj props =>
      let tr := getObjectTransitionTargets ctx props
      match tr.1 with
      | some l =>
        if !(everyDefined l) then (none, pushError tr.2 .transition_property_unhandled)
        else
          let e := createEdge tr.2 sourceId eventTypeData
          let pe := processEdgeProps e.1.1 e.2 e.1.2 [] props.reverse
          (some ((e.1.1, pe.1), some (l.filterMap id)), pe.2)
      | none =>
        let e := createEdge tr.2 sourceId eventTypeData
        let pe := processEdgeProps e.1.1 e.2 e.1.2 [] props.reverse
        (some ((e.1.1, pe.1), none), pe.2)
    | _ => (none, ctx)

def registerEdges (ctx : ExtractionContext) :
    List ((Nat × EdgeData) × Option (List String)) → ExtractionContext
  | [] => ctx
  | (e, targets) :: rest =>
    let ctx := { ctx with edges := ctx.edges ++ [e] }
    let ctx :=
      match targets with
      | some tgs => { ctx with originalTargets := ctx.originalTargets ++ [(e.1, tgs)] }
      | none => ctx
    registerEdges ctx rest

/-- `extractEdgeGroup(ctx, ts, transition, {sourceId, eventTypeData})`
applied to the transition property's initializer: if any element fails,
nothing from the group is registered and
`transition_property_unhandled` is recorded. -/
def extractEdgeGroup (ctx : ExtractionContext) (transitionValue : TsExpr)
    (sourceId : Nat) (eventTypeData : EventTypeData) : ExtractionContext :=
  let m := mapMaybeArrayElements ctx transitionValue (edgeElementOf sourceId eventTypeData)
  if !(everyDefined m.1) then pushError m.2 .transition_property_unhandled
  else registerEdges m.2 (m.1.filterMap id)

end Extract

namespace Extract

def setNodeData (ctx : ExtractionContext) (nodeId : Nat) (data : NodeData) :
    ExtractionContext :=
  { ctx with nodes := ctx.nodes.map (fun e => if e.1 == nodeId then (nodeId, data) else e) }

/-- `treeNode.children[childKey] = childTreeNode`. -/
def setChild (ctx : ExtractionContext) (nodeId : Nat) (key : String) (childId : Nat) :
    ExtractionContext :=
  { ctx with treeNodes := ctx.treeNodes.map (fun e =>
      if e.1 == nodeId then
        (nodeId, { e.2 with children := setAssoc e.2.children key childId })
      else e) }

/-- The forward loop of the `on` case; `true` = the loop hit a
non-assignment or key-less transition property, so `extractState` must
return `undefined`. -/
def processOnProps (nodeId : Nat) :
    ExtractionContext → List TsProp → Bool × ExtractionContext
  | ctx, [] => (false, ctx)
  | ctx, .assign key value :: rest =>
    let g := getPropertyKey key
    let ctx := pushErrors ctx g.2
    match jsTruthy g.1 with
    | none => (true, pushError ctx .transition_property_unhandled)
    | some event =>
      let ctx := extractEdgeGroup ctx value nodeId
        (if event = "*" then .wildcard else .named event)
      processOnProps nodeId ctx rest
  | ctx, _ :: _ => (true, pushError ctx .transition_property_unhandled)

/-- The forward loop of the `meta` case. -/
def processMetaProps :
    ExtractionContext → List (String × Option JsonValue) → List TsProp →
      List (String × Option JsonValue) × ExtractionContext
  | ctx, entries, [] => (entries, ctx)
  | ctx, entries, .assign key value :: rest =>
    let g := getPropertyKey key
    let ctx := pushErrors ctx g.2
    match jsTruthy g.1 with
    | some metaKey =>
      let v := getJsonValue value
      processMetaProps (pushErrors ctx v.2) (entries ++ [(metaKey, v.1)]) rest
    | none => processMetaProps ctx entries rest
  | ctx, entries, _ :: rest => processMetaProps ctx entries rest

/-- The per-element callback of the `invoke` case (note the stray `}` in
the fallback `actorId`, present in the source template literal). -/
def actorBlockOfElement (nodeId : Nat) (ctx : ExtractionContext) (element : TsExpr) :
    Option Block × ExtractionContext :=
  if isUndefined element then (none, ctx)
  else
    match element with
    | .obj props =>
      let fsrc := findProperty props "src"
      let ctx := pushErrors ctx fsrc.2
      match fsrc.1 with
      | none => (none, ctx)
      | some srcInit =>
        let fid := findProperty props "id"
        let ctx := pushErrors ctx fid.2
        let src :=
          match srcInit with
          | .str s => (s, ctx)
          | _ =>
            let i := takeId ctx
            ("inline:" ++ toString i.1, i.2)
        let act :=
          match fid.1 with
          | some (.str s) => (s, src.2)
          | _ =>
            let i := takeId src.2
            ("inline:" ++ toString i.1, i.2)
        let r := createActorBlock src.1 nodeId act.1 act.2
        (some r.1, r.2)
    | _ =>
      let i := takeId ctx
      let j := takeId i.2
      let r := createActorBlock ("inline:" ++ toString i.1) nodeId
        ("inline:" ++ toString j.1 ++ "\x7d") j.2
      (some r.1, r.2)

def registerActorBlocks (ctx : ExtractionContext) (blocks : List Block)
    (container : List Nat) : List Nat × ExtractionContext :=
  match blocks with
  | [] => (container, ctx)
  | b :: rest =>
    let container := container ++ [b.uniqueId]
    let ctx := { ctx with
      blocks := ctx.blocks ++ [(b.uniqueId, b)],
      actorImpls := if ctx.actorImpls.contains b.sourceId then ctx.actorImpls
        else ctx.actorImpls ++ [b.sourceId] }
    registerActorBlocks ctx rest container

mutual
def sizeE : TsExpr → Nat
  | .obj props => 1 + sizeP props
  | .arr elems => 1 + sizeL elems
  | _ => 1
def sizeP : List TsProp → Nat
  | [] => 0
  | .assign _ v :: rest => 1 + sizeE v + sizeP rest
  | _ :: rest => 1 + sizeP rest
def sizeL : List TsExpr → Nat
  | [] => 0
  | e :: rest => 1 + sizeE e + sizeL rest
end

mutual
/-- Fuel-indexed `extractState`; the fuel (always adequate through the
`extractState` wrapper) only discharges termination of the non-structural
reverse scan. -/
def extractStateFuel : Nat → ExtractionContext → Option TsExpr → Option Nat →
    Option Nat × ExtractionContext
  | 0, ctx, _, _ => (none, ctx)
  | fuel + 1, ctx, state, parentId =>
    let r := takeId ctx
    let nodeId := r.1
    let ctx := { r.2 with
      nodes := r.2.nodes ++ [(nodeId, {})],
      treeNodes := r.2.treeNodes ++ [(nodeId, { parentId := parentId })] }
    match state with
    | none => (some nodeId, ctx)
    | some stateExpr =>
      match stateExpr with
      | .obj props =>
        let pr := processStatePropsFuel fuel nodeId parentId ctx {} [] props.reverse
        let ctx := setNodeData pr.2.2 nodeId pr.2.1
        if pr.1 then (none, ctx) else (some nodeId, ctx)
      | _ => (some nodeId, pushError ctx .state_unhandled)

/-- Fuel-indexed reverse-declaration-order property scan of
`extractState` (input list = the state literal's properties reversed);
the `Bool` is the abort flag raised inside the `on` branch. -/
def processStatePropsFuel : Nat → Nat → Option Nat → ExtractionContext → NodeData →
    List String → List TsProp → Bool × NodeData × ExtractionContext
  | 0, _, _, ctx, data, _, _ => (false, data, ctx)
  | fuel + 1, nodeId, parentId, ctx, data, seen, props =>
    match props with
    | [] => (false, data, ctx)
    | prop :: rest =>
      match prop with
      | .assign key value =>
        let g := getPropertyKey key
        let ctx := pushErrors ctx g.2
        match jsTruthy g.1 with
        | none =>
          processStatePropsFuel fuel nodeId parentId
            (pushError ctx .state_property_unhandled) data seen rest
        | some k =>
          if seen.contains k then
            processStatePropsFuel fuel nodeId parentId ctx data seen rest
          else
            let seen := k :: seen
            if k = "id" then
              match value with
              | .str s =>
                processStatePropsFuel fuel nodeId parentId
                  { ctx with idMap := setAssoc ctx.idMap s nodeId } data seen rest
              | _ => processStatePropsFuel fuel nodeId parentId ctx data seen rest
            else if k = "context" then
              if parentId.isSome then
                processStatePropsFuel fuel nodeId parentId
                  (pushError ctx .state_property_invalid) data seen rest
              else
                match value with
                | .obj cprops =>
                  let o := getJsonObject cprops
                  let ctx := pushErrors ctx o.2
                  let ctx :=
                    match o.1 with
                    | some entries => { ctx with dataContext := .json (.obj entries) }
                    | none => ctx
                  processStatePropsFuel fuel nodeId parentId ctx data seen rest
                | .fn =>
                  processStatePropsFuel fuel nodeId parentId
                    { ctx with dataContext := .fnMarker } data seen rest
                | _ =>
                  processStatePropsFuel fuel nodeId parentId
                    (pushError ctx .state_property_unhandled) data seen rest
            else if k = "always" then
              processStatePropsFuel fuel nodeId parentId
                (extractEdgeGroup ctx value nodeId .always) data seen rest
            else if k = "on" then
              match value with
              | .obj oprops =>
                let o := processOnProps nodeId ctx oprops
                if o.1 then (true, data, o.2)
                else processStatePropsFuel fuel nodeId parentId o.2 data seen rest
              | _ =>
                processStatePropsFuel fuel nodeId parentId
                  (pushError ctx .state_property_unhandled) data seen rest
            else if k = "states" then
              match value with
              | .obj sprops =>
                processStatePropsFuel fuel nodeId parentId
                  (processChildStatesFuel fuel nodeId ctx sprops) data seen rest
              | _ =>
                processStatePropsFuel fuel nodeId parentId
                  (pushError ctx .state_unhandled) data seen rest
            else if k = "initial" then
              match value with
              | .str s =>
                processStatePropsFuel fuel nodeId parentId ctx
                  { data with initial := some s } seen rest
              | .undef => processStatePropsFuel fuel nodeId parentId ctx data seen rest
              | _ =>
                processStatePropsFuel fuel nodeId parentId
                  (pushError ctx .state_property_unhandled) data seen rest
            else if k = "type" then
              match value with
              | .str s =>
                if s = "history" ∨ s = "parallel" ∨ s = "final" then
                  processStatePropsFuel fuel nodeId parentId ctx
                    { data with type := s } seen rest
                else if s = "atomic" ∨ s = "compound" then
                  processStatePropsFuel fuel nodeId parentId ctx data seen rest
                else
                  processStatePropsFuel fuel nodeId parentId
                    (pushError ctx .state_type_invalid) data seen rest
              | .undef => processStatePropsFuel fuel nodeId parentId ctx data seen rest
              | _ =>
                processStatePropsFuel fuel nodeId parentId
                  (pushError ctx .state_property_unhandled) data seen rest
            else if k = "history" then
              match value with
              | .str s =>
                if s = "shallow" ∨ s = "deep" then
                  processStatePropsFuel fuel nodeId parentId ctx
                    { data with history := some s } seen rest
                else
                  processStatePropsFuel fuel nodeId parentId
                    (pushError (pushError ctx .state_history_invalid)
                      .state_property_unhandled) data seen rest
              | .bool true =>
                processStatePropsFuel fuel nodeId parentId ctx
                  { data with history := some "deep" } seen rest
              | .bool false =>
                processStatePropsFuel fuel nodeId parentId ctx
                  { data with history := some "shallow" } seen rest
              | .undef => processStatePropsFuel fuel nodeId parentId ctx data seen rest
              | _ =>
                processStatePropsFuel fuel nodeId parentId
                  (pushError ctx .state_property_unhandled) data seen rest
            else if k = "description" then
              match value with
              | .str s =>
                processStatePropsFuel fuel nodeId parentId ctx
                  { data with description := some s } seen rest
              | .undef => processStatePropsFuel fuel nodeId parentId ctx data seen rest
              | _ =>
                processStatePropsFuel fuel nodeId parentId
                  (pushError ctx .state_property_unhandled) data seen rest
            else if k = "meta" then
              match value with
              | .obj mprops =>
                let m := processMetaProps ctx data.metaEntries mprops
                processStatePropsFuel fuel nodeId parentId m.2
                  { data with metaEntries := m.1 } seen rest
              | .undef => processStatePropsFuel fuel nodeId parentId ctx data seen rest
              | _ =>
                processStatePropsFuel fuel nodeId parentId
                  (pushError ctx .state_property_unhandled) data seen rest
            else if k = "entry" then
              let b := extractActionBlocks ctx value nodeId
              if !(everyDefined b.1) then
                processStatePropsFuel fuel nodeId parentId
                  (pushError b.2 .state_property_unhandled) data seen rest
              else
                let r := registerActionBlocks b.2 (b.1.filterMap id) data.entry
                processStatePropsFuel fuel nodeId parentId r.2
                  { data with entry := r.1 } seen rest
            else if k = "exit" then
              let b := extractActionBlocks ctx value nodeId
              if !(everyDefined b.1) then
                processStatePropsFuel fuel nodeId parentId
                  (pushError b.2 .state_property_unhandled) data seen rest
              else
                let r := registerActionBlocks b.2 (b.1.filterMap id) data.exit
                processStatePropsFuel fuel nodeId parentId r.2
                  { data with exit := r.1 } seen rest
            else if k = "invoke" then
              let b := mapMaybeArrayElements ctx value (actorBlockOfElement nodeId)
              if !(everyDefined b.1) then
                processStatePropsFuel fuel nodeId parentId
                  (pushError b.2 .state_property_unhandled) data seen rest
              else
                let r := registerActorBlocks b.2 (b.1.filterMap id) data.invoke
                processStatePropsFuel fuel nodeId parentId r.2
                  { data with invoke := r.1 } seen rest
            else
              processStatePropsFuel fuel nodeId parentId ctx data seen rest
      | _ =>
        processStatePropsFuel fuel nodeId parentId
          (pushError ctx .state_property_unhandled) data seen rest

/-- Fuel-indexed forward loop of the `states` case. -/
def processChildStatesFuel : Nat → Nat → ExtractionContext → List TsProp →
    ExtractionContext
  | 0, _, ctx, _ => ctx
  | fuel + 1, nodeId, ctx, props =>
    match props with
    | [] => ctx
    | .assign key value :: rest =>
      let g := getPropertyKey key
      let ctx := pushErrors ctx g.2
      match jsTruthy g.1 with
      | some childKey =>
        let r := extractStateFuel fuel ctx (some value) (some nodeId)
        match r.1 with
        | none => processChildStatesFuel fuel nodeId r.2 rest
        | some childId =>
          processChildStatesFuel fuel nodeId (setChild r.2 nodeId childKey childId) rest
      | none => processChildStatesFuel fuel nodeId ctx rest
    | _ :: rest =>
      processChildStatesFuel fuel nodeId (pushError ctx .state_property_unhandled) rest
end

/-- Adequate fuel for one extraction (a strict bound on the number of
nested calls). -/
def stateFuel : Option TsExpr → Nat
  | none => Nat.succ 0
  | some e => Nat.succ (4 * sizeE e + 3)

/-- `extractState(ctx, ts, state, parentId)`: returns the created node's
id (the `TreeNode`), or `none` when the `on` loop returned early. -/
def extractState (ctx : ExtractionContext) (state : Option TsExpr)
    (parentId : Option Nat) : Option Nat × ExtractionContext :=
  extractStateFuel (stateFuel state) ctx state parentId

end Extract

namespace Extract

/-- `ctx.idToNodeIdMap[s]` over the flat extraction context. -/
def idMapGet (ctx : ExtractionContext) (s : String) : Option Nat :=
  (ctx.idMap.find? (fun e => e.1 == s)).map (fun e => e.2)

def treeNodeGet (ctx : ExtractionContext) (id : Nat) : Option TreeNodeData :=
  getAssoc ctx.treeNodes id

/-- `resolvePathOrigin(ctx, sourceId, origin)` over the extraction
context built by `extractState`. -/
def resolvePathOrigin (ctx : ExtractionContext) (sourceId : Nat) (origin : String) :
    Option Nat :=
  if origin = "" then (treeNodeGet ctx sourceId).map (fun _ => sourceId)
  else if startsWithHash origin then
    match idMapGet ctx (sliceOne origin) with
    | none => none
    | some originId => (treeNodeGet ctx originId).map (fun _ => originId)
  else
    match treeNodeGet ctx sourceId with
    | none => none
    | some src =>
      match src.parentId with
      | none => none
      | some pid =>
        match treeNodeGet ctx pid with
        | none => none
        | some parent =>
          (parent.children.find? (fun e => e.1 == origin)).map (fun e => e.2)

/-- The `while ((segment = path.shift()))` walk (an empty segment ends the
loop at the current marker). -/
def walkSegments (ctx : ExtractionContext) : Nat → List String → Option Nat
  | marker, [] => some marker
  | marker, seg :: rest =>
    if seg = "" then some marker
    else
      match treeNodeGet ctx marker with
      | none => none
      | some m =>
        match (m.children.find? (fun e => e.1 == seg)).map (fun e => e.2) with
        | some childId => walkSegments ctx childId rest
        | none => none

/-- `resolveTargetId(ctx, sourceId, target)` with its error push. -/
def resolveTargetId (ctx : ExtractionContext) (sourceId : Nat) (target : String) :
    Option Nat × ExtractionContext :=
  match splitDot target with
  | [] => (none, ctx)
  | origin :: path =>
    match resolvePathOrigin ctx sourceId origin with
    | none => (none, pushError ctx .transition_target_unresolved)
    | some resolvedOrigin =>
      match walkSegments ctx resolvedOrigin path with
      | none => (none, pushError ctx .transition_target_unresolved)
      | some marker => (some marker, ctx)

def pushEdgeTarget (ctx : ExtractionContext) (edgeId tid : Nat) : ExtractionContext :=
  { ctx with edges := ctx.edges.map (fun e =>
      if e.1 == edgeId then (e.1, { e.2 with targets := e.2.targets ++ [tid] }) else e) }

def resolveTargetsEntry (edgeId : Nat) :
    ExtractionContext → List String → ExtractionContext
  | ctx, [] => ctx
  | ctx, tg :: rest =>
    match getAssoc ctx.edges edgeId with
    | none => ctx
    | some ed =>
      let r := resolveTargetId ctx ed.source tg
      match r.1 with
      | none =>
        resolveTargetsEntry edgeId (pushError r.2 .transition_property_unhandled) rest
      | some tid => resolveTargetsEntry edgeId (pushEdgeTarget r.2 edgeId tid) rest

def resolveTargetsGo : ExtractionContext → List (Nat × List String) → ExtractionContext
  | ctx, [] => ctx
  | ctx, (edgeId, tgs) :: rest => resolveTargetsGo (resolveTargetsEntry edgeId ctx tgs) rest

/-- `resolveTargets(ctx)`. -/
def resolveTargets (ctx : ExtractionContext) : ExtractionContext :=
  resolveTargetsGo ctx ctx.originalTargets

structure ExtractorDigraphDef where
  root : Nat
  nodes : List (Nat × NodeData)
  edges : List (Nat × EdgeData)
  blocks : List (Nat × Block)
  actionImpls : List String
  actorImpls : List String
  dataContext : ContextData

/-- `extractMachineConfig(ctx, ts, createMachineCall)` applied to the
call's first argument (`none` = missing argument): the undefined digraph
is produced exactly when `extractState` returns `undefined`. -/
def extractMachineConfig (ctx : ExtractionContext) (rootState : Option TsExpr) :
    Option ExtractorDigraphDef × List ExtractionError :=
  let r := extractState ctx rootState none
  match r.1 with
  | none => (none, r.2.errors)
  | some rootId =>
    let ctx := resolveTargets r.2
    (some { root := rootId, nodes := ctx.nodes, edges := ctx.edges,
            blocks := ctx.blocks, actionImpls := ctx.actionImpls,
            actorImpls := ctx.actorImpls, dataContext := ctx.dataContext },
      ctx.errors)

end Extract

namespace Extract

/-- A state literal with two `initial` property assignments. -/
def dupInitialState (v1 v2 : String) : TsExpr :=
  .obj [.assign (.lit "initial") (.str v1), .assign (.lit "initial") (.str v2)]

/-- C1 as stated fails: for `{initial: "a", initial: "b"}` extraction
stores `"b"` — the syntactically LAST-declared value — not the
first-declared `"a"`; no error is recorded for the duplicate. -/
theorem c1_counterexample :
    ((getAssoc (extractState {} (some (dupInitialState "a" "b")) none).2.nodes 0).map
        NodeData.initial) = some (some "b") ∧
    some (some "b") ≠ some (some "a") ∧
    (extractState {} (some (dupInitialState "a" "b")) none).2.errors = [] := by
  refine ⟨rfl, by decide, rfl⟩

/-- C1 (amended): under a duplicated `initial` key, the reverse scan with
its seen-set makes the syntactically last-declared occurrence win; the
earlier duplicate is skipped silently, with no error recorded. -/
theorem extractState_duplicate_initial_last_wins (v1 v2 : String) :
    (extractState {} (some (dupInitialState v1 v2)) none).1 = some 0 ∧
    ((getAssoc (extractState {} (some (dupInitialState v1 v2)) none).2.nodes 0).map
        NodeData.initial) = some (some v2) ∧
    (extractState {} (some (dupInitialState v1 v2)) none).2.errors = [] :=
  ⟨rfl, rfl, rfl⟩

/-- A state whose `on` object contains a spread property. -/
def badOnState : TsExpr := .obj [.assign (.lit "on") (.obj [.spread])]

/-- C9 as stated fails: a state whose `on` object holds a spread makes
`extractState` return `undefined`, so the undefined-digraph branch of
`extractMachineConfig` is reachable. -/
theorem c9_counterexample :
    (extractState {} (some badOnState) none).1 = none ∧
    (extractMachineConfig {} (some badOnState)).1 = none ∧
    (extractMachineConfig {} (some badOnState)).2 =
      [ExtractionError.transition_property_unhandled] :=
  ⟨rfl, rfl, rfl⟩

/-- C9 (amended): `extractState` does return a tree node for a missing
first argument, and for a non-object-literal argument (recording only the
`state_unhandled` soft error); but an `on` object containing a
non-property-assignment (or key-less) transition aborts it with
`undefined`, so `extractMachineConfig`'s undefined-digraph branch is
reachable. -/
theorem extractState_total_except_on_abort (ctx : ExtractionContext) (e : TsExpr)
    (pid : Option Nat) (hne : ∀ props, e ≠ .obj props) :
    (extractState ctx none pid).1 = some ctx.counter ∧
    (extractState ctx (some e) pid).1 = some ctx.counter ∧
    (extractState ctx (some e) pid).2.errors = ctx.errors ++ [.state_unhandled] ∧
    ∃ bad : TsExpr, (extractMachineConfig {} (some bad)).1 = none := by
  refine ⟨rfl, ?_, ?_, ⟨badOnState, rfl⟩⟩ <;>
    cases e <;> first | rfl | exact absurd rfl (hne _)

/-- Witness for the amended C9 at a numeric-literal machine argument. -/
theorem extractState_total_except_on_abort_witness :
    (extractState {} none none).1 = some ({} : ExtractionContext).counter ∧
    (extractState {} (some (.num 3)) none).1 = some ({} : ExtractionContext).counter ∧
    (extractState {} (some (.num 3)) none).2.errors =
      ({} : ExtractionContext).errors ++ [.state_unhandled] ∧
    ∃ bad : TsExpr, (extractMachineConfig {} (some bad)).1 = none :=
  extractState_total_except_on_abort {} (.num 3) none
    (fun _ h => TsExpr.noConfusion h)

end Extract

namespace Extract

/-! ### C10: all-or-nothing registration of an edge group -/

theorem edges_pushError (ctx : ExtractionContext) (e : ExtractionError) :
    (pushError ctx e).edges = ctx.edges := rfl

theorem origT_pushError (ctx : ExtractionContext) (e : ExtractionError) :
    (pushError ctx e).originalTargets = ctx.originalTargets := rfl

theorem edges_pushErrors (ctx : ExtractionContext) (es : List ExtractionError) :
    (pushErrors ctx es).edges = ctx.edges := rfl

theorem origT_pushErrors (ctx : ExtractionContext) (es : List ExtractionError) :
    (pushErrors ctx es).originalTargets = ctx.originalTargets := rfl

/-- Contexts agreeing on `edges` and `originalTargets`. -/
def SameGraph (a b : ExtractionContext) : Prop :=
  a.edges = b.edges ∧ a.originalTargets = b.originalTargets

theorem sameGraph_refl (a : ExtractionContext) : SameGraph a a := ⟨rfl, rfl⟩

theorem sameGraph_trans {a b c : ExtractionContext}
    (h1 : SameGraph a b) (h2 : SameGraph b c) : SameGraph a c :=
  ⟨h1.1.trans h2.1, h1.2.trans h2.2⟩

theorem sameGraph_pushError (ctx : ExtractionContext) (e : ExtractionError) :
    SameGraph (pushError ctx e) ctx := ⟨rfl, rfl⟩

theorem sameGraph_pushErrors (ctx : ExtractionContext) (es : List ExtractionError) :
    SameGraph (pushErrors ctx es) ctx := ⟨rfl, rfl⟩

theorem sameGraph_createActionBlock (s : String) (p : Nat) (ctx : ExtractionContext) :
    SameGraph (createActionBlock s p ctx).2 ctx := ⟨rfl, rfl⟩

theorem sameGraph_takeId (ctx : ExtractionContext) :
    SameGraph (takeId ctx).2 ctx := ⟨rfl, rfl⟩

theorem sameGraph_createEdge (ctx : ExtractionContext) (s : Nat) (etd : EventTypeData) :
    SameGraph (createEdge ctx s etd).2 ctx := ⟨rfl, rfl⟩

theorem sameGraph_actionBlockOfElement (p : Nat) (ctx : ExtractionContext) (e : TsExpr) :
    SameGraph (actionBlockOfElement p ctx e).2 ctx := by
  unfold actionBlockOfElement
  split
  · exact sameGraph_refl ctx
  · cases e <;> try exact sameGraph_refl ctx
    rename_i props hund
    cases hf : (findProperty props "type").1 with
    | none => simp only [hf]; exact sameGraph_refl ctx
    | some init =>
      simp only [hf]
      cases init <;> exact sameGraph_refl ctx

theorem sameGraph_registerActionBlocks (ctx : ExtractionContext) (blocks : List Block)
    (container : List Nat) :
    SameGraph (registerActionBlocks ctx blocks container).2 ctx := by
  induction blocks generalizing ctx container with
  | nil => exact sameGraph_refl ctx
  | cons b rest ih =>
    unfold registerActionBlocks
    exact sameGraph_trans (ih _ _) ⟨rfl, rfl⟩

theorem sameGraph_mapElemsGo {α : Type}
    (cb : ExtractionContext → TsExpr → α × ExtractionContext)
    (hcb : ∀ c e, SameGraph (cb c e).2 c) :
    ∀ (elems : List TsExpr) (ctx : ExtractionContext),
      SameGraph (mapElemsGo cb ctx elems).2 ctx := by
  intro elems
  induction elems with
  | nil => intro ctx; exact sameGraph_refl ctx
  | cons e rest ih =>
    intro ctx
    unfold mapElemsGo
    exact sameGraph_trans (ih _) (hcb ctx e)

theorem sameGraph_mapMaybeArrayElements {α : Type} (ctx : ExtractionContext)
    (expression : TsExpr) (cb : ExtractionContext → TsExpr → α × ExtractionContext)
    (hcb : ∀ c e, SameGraph (cb c e).2 c) :
    SameGraph (mapMaybeArrayElements ctx expression cb).2 ctx := by
  unfold mapMaybeArrayElements
  cases expression <;> first
    | exact sameGraph_mapElemsGo cb hcb _ ctx
    | exact hcb ctx _

theorem sameGraph_extractActionBlocks (ctx : ExtractionContext) (expr : TsExpr)
    (parentId : Nat) : SameGraph (extractActionBlocks ctx expr parentId).2 ctx :=
  sameGraph_mapMaybeArrayElements ctx expr _
    (fun c e => sameGraph_actionBlockOfElement parentId c e)

theorem sameGraph_getObjectTransitionTargets (ctx : ExtractionContext)
    (props : List TsProp) :
    SameGraph (getObjectTransitionTargets ctx props).2 ctx := by
  unfold getObjectTransitionTargets
  cases hf : (findProperty props "target").1 with
  | none => simp only [hf]; exact sameGraph_pushErrors _ _
  | some init =>
    simp only [hf]
    split
    · exact sameGraph_pushErrors _ _
    · exact sameGraph_trans
        (sameGraph_mapMaybeArrayElements _ init _ (fun c e => sameGraph_refl c))
        (sameGraph_pushErrors _ _)

theorem sameGraph_processEdgeProps (edgeId : Nat) :
    ∀ (props : List TsProp) (ctx : ExtractionContext) (edge : EdgeData)
      (seen : List String),
      SameGraph (processEdgeProps edgeId ctx edge seen props).2 ctx := by
  intro props
  induction props with
  | nil => intro ctx edge seen; exact sameGraph_refl ctx
  | cons prop rest ih =>
    intro ctx edge seen
    unfold processEdgeProps
    cases prop with
    | assign key value =>
      cases hg : jsTruthy (getPropertyKey key).1 with
      | none =>
        simp only [hg]
        exact sameGraph_trans (ih _ _ _)
          (sameGraph_trans (sameGraph_pushError _ _) (sameGraph_pushErrors _ _))
      | some k =>
        simp only [hg]
        split
        · exact sameGraph_trans (ih _ _ _) (sameGraph_pushErrors _ _)
        · split
          · split
            · exact sameGraph_trans (ih _ _ _)
                (sameGraph_trans (sameGraph_pushError _ _)
                  (sameGraph_trans (sameGraph_extractActionBlocks _ _ _)
                    (sameGraph_pushErrors _ _)))
            · exact sameGraph_trans (ih _ _ _)
                (sameGraph_trans (sameGraph_registerActionBlocks _ _ _)
                  (sameGraph_trans (sameGraph_extractActionBlocks _ _ _)
                    (sameGraph_pushErrors _ _)))
          · split
            · exact sameGraph_trans (ih _ _ _) (sameGraph_pushErrors _ _)
            · exact sameGraph_trans (ih _ _ _) (sameGraph_pushErrors _ _)
    | shorthand =>
      exact sameGraph_trans (ih _ _ _) (sameGraph_pushError _ _)
    | spread =>
      exact sameGraph_trans (ih _ _ _) (sameGraph_pushError _ _)
    | method =>
      exact sameGraph_trans (ih _ _ _) (sameGraph_pushError _ _)

theorem sameGraph_edgeElementOf (sourceId : Nat) (etd : EventTypeData)
    (ctx : ExtractionContext) (e : TsExpr) :
    SameGraph (edgeElementOf sourceId etd ctx e).2 ctx := by
  unfold edgeElementOf
  split
  · exact sameGraph_refl ctx
  · cases e <;> try exact sameGraph_refl ctx
    rename_i props hforb
    cases ht : (getObjectTransitionTargets ctx props).1 with
    | some l =>
      simp only [ht]
      split
      · exact sameGraph_trans (sameGraph_pushError _ _)
          (sameGraph_getObjectTransitionTargets _ _)
      · exact sameGraph_trans (sameGraph_processEdgeProps _ _ _ _ _)
          (sameGraph_trans (sameGraph_createEdge _ _ _)
            (sameGraph_getObjectTransitionTargets _ _))
    | none =>
      simp only [ht]
      exact sameGraph_trans (sameGraph_processEdgeProps _ _ _ _ _)
        (sameGraph_trans (sameGraph_createEdge _ _ _)
          (sameGraph_getObjectTransitionTargets _ _))

end Extract

namespace Extract

theorem mapElemsGo_pure {α : Type} (g : TsExpr → α) (elems : List TsExpr) :
    ∀ ctx, mapElemsGo (fun c e => (g e, c)) ctx elems = (elems.map g, ctx) := by
  induction elems with
  | nil => intro ctx; rfl
  | cons e rest ih =>
    intro ctx
    unfold mapElemsGo
    dsimp only
    rw [ih]
    rfl

theorem mapMaybeArrayElements_pure {α : Type} (g : TsExpr → α) (expression : TsExpr) :
    ∀ ctx, mapMaybeArrayElements ctx expression (fun c e => (g e, c)) =
      ((match expression with | .arr elems => elems.map g | e => [g e]), ctx) := by
  intro ctx
  unfold mapMaybeArrayElements
  cases expression <;> first | exact mapElemsGo_pure g _ ctx | rfl

/-- The option part of `getObjectTransitionTargets` only depends on the
property list, not on the threaded context. -/
theorem getObjectTransitionTargets_fst (ctx ctx' : ExtractionContext)
    (props : List TsProp) :
    (getObjectTransitionTargets ctx props).1 = (getObjectTransitionTargets ctx' props).1 := by
  unfold getObjectTransitionTargets
  cases hf : (findProperty props "target").1 with
  | none => simp only [hf]
  | some init =>
    simp only [hf]
    split
    · rfl
    · refine congrArg some ?_
      have h1 := congrArg Prod.fst (mapMaybeArrayElements_pure
        (fun e => match e with | .str s => some s | _ => none) init
        (pushErrors ctx (findProperty props "target").2))
      have h2 := congrArg Prod.fst (mapMaybeArrayElements_pure
        (fun e => match e with | .str s => some s | _ => none) init
        (pushErrors ctx' (findProperty props "target").2))
      exact h1.trans h2.symm

/-- The claim's characterization of a transition-group element that fails
to produce an edge: neither `undefined`/`null`, a string literal, nor an
object literal — or an object literal whose `target` holds a
non-string-literal element. -/
def edgeElementFails (e : TsExpr) : Bool :=
  if isForbiddenTarget e then false
  else
    match e with
    | .str _ => false
    | .obj props =>
      match (getObjectTransitionTargets {} props).1 with
      | some l => !(everyDefined l)
      | none => false
    | _ => true

theorem edgeElementOf_fails_iff (sourceId : Nat) (etd : EventTypeData)
    (ctx : ExtractionContext) (e : TsExpr) :
    ((edgeElementOf sourceId etd ctx e).1 = none) ↔ edgeElementFails e = true := by
  by_cases hforb : isForbiddenTarget e = true
  · simp [edgeElementOf, edgeElementFails, hforb]
  · unfold edgeElementOf edgeElementFails
    rw [if_neg hforb, if_neg hforb]
    cases e <;> try simp
    rename_i props
    rw [getObjectTransitionTargets_fst {} ctx props]
    cases ht : (getObjectTransitionTargets ctx props).1 with
    | some l =>
      simp only [ht]
      split <;> simp_all
    | none => simp only [ht]; simp

theorem mapElemsGo_mem_none {α : Type}
    (cb : ExtractionContext → TsExpr → Option α × ExtractionContext) (wit : TsExpr)
    (hwit : ∀ c, (cb c wit).1 = none) :
    ∀ (elems : List TsExpr) (ctx : ExtractionContext), wit ∈ elems →
      (none : Option α) ∈ (mapElemsGo cb ctx elems).1 := by
  intro elems
  induction elems with
  | nil => intro ctx h; cases h
  | cons e rest ih =>
    intro ctx h
    unfold mapElemsGo
    rcases List.mem_cons.1 h with rfl | h
    · exact List.mem_cons.2 (Or.inl (hwit ctx).symm)
    · exact List.mem_cons_of_mem _ (ih _ h)

theorem everyDefined_false {α : Type} {l : List (Option α)}
    (h : (none : Option α) ∈ l) : everyDefined l = false := by
  unfold everyDefined
  rw [Bool.eq_false_iff]
  intro hall
  have := List.all_eq_true.1 hall none h
  simp at this

/-- C10: if any element of an `on`/`always` transition group fails to
produce an edge, no edge from the whole group is registered — otherwise
valid sibling elements included — and `transition_property_unhandled` is
recorded. -/
theorem extractEdgeGroup_all_or_nothing (ctx : ExtractionContext) (sourceId : Nat)
    (etd : EventTypeData) (elems : List TsExpr) (el : TsExpr)
    (hmem : el ∈ elems) (hfail : edgeElementFails el = true) :
    (extractEdgeGroup ctx (.arr elems) sourceId etd).edges = ctx.edges ∧
    (extractEdgeGroup ctx (.arr elems) sourceId etd).originalTargets =
      ctx.originalTargets ∧
    ExtractionError.transition_property_unhandled ∈
      (extractEdgeGroup ctx (.arr elems) sourceId etd).errors := by
  have hnone : (none : Option ((Nat × EdgeData) × Option (List String))) ∈
      (mapElemsGo (edgeElementOf sourceId etd) ctx elems).1 :=
    mapElemsGo_mem_none _ el
      (fun c => (edgeElementOf_fails_iff sourceId etd c el).2 hfail) elems ctx hmem
  have hev : everyDefined (mapElemsGo (edgeElementOf sourceId etd) ctx elems).1 = false :=
    everyDefined_false hnone
  have hpres := sameGraph_mapElemsGo (edgeElementOf sourceId etd)
    (fun c e => sameGraph_edgeElementOf sourceId etd c e) elems ctx
  have hgroup : extractEdgeGroup ctx (.arr elems) sourceId etd =
      pushError (mapElemsGo (edgeElementOf sourceId etd) ctx elems).2
        .transition_property_unhandled := by
    unfold extractEdgeGroup mapMaybeArrayElements
    dsimp only
    rw [hev]
    rfl
  rw [hgroup]
  refine ⟨?_, ?_, ?_⟩
  · rw [edges_pushError]; exact hpres.1
  · rw [origT_pushError]; exact hpres.2
  · unfold pushError
    simp

/-- Witness: a group `["b", 7]` with the valid sibling `"b"` registers
nothing because of the numeric element. -/
theorem extractEdgeGroup_all_or_nothing_witness :
    (extractEdgeGroup {} (.arr [.str "b", .num 7]) 0 .always).edges =
      ({} : ExtractionContext).edges ∧
    (extractEdgeGroup {} (.arr [.str "b", .num 7]) 0 .always).originalTargets =
      ({} : ExtractionContext).originalTargets ∧
    ExtractionError.transition_property_unhandled ∈
      (extractEdgeGroup {} (.arr [.str "b", .num 7]) 0 .always).errors :=
  extractEdgeGroup_all_or_nothing {} 0 .always [.str "b", .num 7] (.num 7)
    (List.mem_cons_of_mem _ (List.mem_cons_self _ _)) (by rfl)

end Extract

/-! ## Patch synthesis (`ts-project/src/index.ts`, `applyPatches` handlers) -/

namespace Patch

/-- Insertion elements built by the `c.…` constructors (`c.string` with
its `allowMultiline` option, `c.boolean`, `c.undefined`, `c.array`,
`c.object` of `c.property` pairs). -/
inductive CElem where
  | str (s : String) (allowMultiline : Bool)
  | bool (b : Bool)
  | undef
  | arr (elems : List CElem)
  | obj (props : List (String × CElem))

/-- The insertion priorities referenced by the patch handlers. -/
inductive InsertionPriority where
  | States
  | Initial
  | StateType
  | History
deriving DecidableEq, Repr

/-- One recorded code change of `createCodeChanges`; `removeProperty`
carries the removed property's key (enough to identify the property the
source passes by node), `replaceRange` the element replacing a property
initializer's range. -/
inductive CodeChange where
  | removeProperty (key : String)
  | replaceRange (element : CElem)
  | insertPropertyIntoObject (key : String) (value : CElem)
      (priority : Option InsertionPriority)
  | insertPropertyBeforeProperty (anchor : String) (key : String) (value : CElem)
  | replacePropertyName (newName : String)

/-- The `replace nodes.<id>.data.type` handler of `applyPatches`
(index.ts lines 550-587) over the state's object literal: value
`"normal"` removes any existing `type` property (and does nothing when
absent); any other value replaces the existing initializer or inserts a
new `type` property with `InsertionPriority.StateType`. -/
def applyTypePatch (node : List Extract.TsProp) (value : String) :
    List CodeChange :=
  let typeProp := (Extract.findProperty node "type").1
  if value = "normal" then
    match typeProp with
    | some _ => [.removeProperty "type"]
    | none => []
  else
    match typeProp with
    | some _ => [.replaceRange (.str value false)]
    | none => [.insertPropertyIntoObject "type" (.str value false) (some .StateType)]

/-- The `replace nodes.<id>.data.history` handler of `applyPatches`
(index.ts lines 588-626): an absent (`undefined`) or `"shallow"` value
removes any existing `history` property; any other string replaces the
existing initializer or inserts a new `history` property with
`InsertionPriority.History`. -/
def applyHistoryPatch (node : List Extract.TsProp) (value : Option String) :
    List CodeChange :=
  let historyProp := (Extract.findProperty node "history").1
  if value = none ∨ value = some "shallow" then
    match historyProp with
    | some _ => [.removeProperty "history"]
    | none => []
  else
    match value with
    | some v =>
      match historyProp with
      | some _ => [.replaceRange (.str v false)]
      | none => [.insertPropertyIntoObject "history" (.str v false) (some .History)]
    | none => []

/-- C4: a `type: "normal"` replace patch only ever removes an existing
`type` property (no edit when absent), and no `type` patch ever writes
the literal `"normal"`; likewise `history` set to absent or `"shallow"`
only removes, and no `history` patch ever writes the literal
`"shallow"`. -/
theorem type_history_default_removal :
    (∀ node : List Extract.TsProp, applyTypePatch node "normal" =
      match (Extract.findProperty node "type").1 with
      | some _ => [CodeChange.removeProperty "type"]
      | none => []) ∧
    (∀ (node : List Extract.TsProp) (value : String) (b : Bool)
      (p : Option InsertionPriority),
      CodeChange.insertPropertyIntoObject "type" (.str "normal" b) p ∉
        applyTypePatch node value ∧
      CodeChange.replaceRange (.str "normal" b) ∉ applyTypePatch node value) ∧
    (∀ (node : List Extract.TsProp) (value : Option String),
      value = none ∨ value = some "shallow" →
      applyHistoryPatch node value =
      match (Extract.findProperty node "history").1 with
      | some _ => [CodeChange.removeProperty "history"]
      | none => []) ∧
    (∀ (node : List Extract.TsProp) (value : Option String) (b : Bool)
      (p : Option InsertionPriority),
      CodeChange.insertPropertyIntoObject "history" (.str "shallow" b) p ∉
        applyHistoryPatch node value ∧
      CodeChange.replaceRange (.str "shallow" b) ∉ applyHistoryPatch node value) := by
  refine ⟨?_, ?_, ?_, ?_⟩
  · intro node
    unfold applyTypePatch
    dsimp only
    rw [if_pos rfl]
  · intro node value b p
    unfold applyTypePatch
    dsimp only
    by_cases hv : value = "normal"
    · rw [if_pos hv]
      cases (Extract.findProperty node "type").1 <;> simp
    · rw [if_neg hv]
      cases (Extract.findProperty node "type").1 <;>
        constructor <;> simp <;> intro h <;> exact absurd h.symm hv
  · intro node value hv
    unfold applyHistoryPatch
    dsimp only
    rw [if_pos hv]
  · intro node value b p
    unfold applyHistoryPatch
    dsimp only
    by_cases hc : value = none ∨ value = some "shallow"
    · rw [if_pos hc]
      cases (Extract.findProperty node "history").1 <;> simp
    · rw [if_neg hc]
      match value with
      | none => exact absurd (Or.inl rfl) hc
      | some v =>
        have hv : v ≠ "shallow" := by
          intro h
          exact hc (Or.inr (by rw [h]))
        cases (Extract.findProperty node "history").1 <;>
          constructor <;> simp <;> intro h <;> exact absurd h.symm hv

/-- A state literal carrying both a `type` and a `history` property. -/
def exStateNode : List Extract.TsProp :=
  [.assign (.lit "type") (.str "history"), .assign (.lit "history") (.str "deep")]

/-- Witness: on a state with explicit `type`/`history` properties, the
default-valued patches produce exactly the removals. -/
theorem type_history_default_removal_witness :
    applyTypePatch exStateNode "normal" = [CodeChange.removeProperty "type"] ∧
    applyHistoryPatch exStateNode (some "shallow") =
      [CodeChange.removeProperty "history"] ∧
    applyHistoryPatch exStateNode none = [CodeChange.removeProperty "history"] := by
  refine ⟨?_, ?_, ?_⟩
  · rw [type_history_default_removal.1 exStateNode]
    rfl
  · rw [type_history_default_removal.2.2.1 exStateNode (some "shallow") (Or.inr rfl)]
    rfl
  · rw [type_history_default_removal.2.2.1 exStateNode none (Or.inl rfl)]
    rfl

end Patch

namespace Patch

/-- `[some a, …]` to `some [a, …]`, `none` if any element is missing. -/
def allSome {α : Type} : List (Option α) → Option (List α)
  | [] => some []
  | none :: _ => none
  | some x :: rest => (allSome rest).map (fun l => x :: l)

/-- An edge as consumed by `toTransitionElement`: node ids are the tree
paths of this development, `guard` is the guard block's id, and
`internal`/`description` mirror `edge.data`. -/
structure PEdge where
  source : NodePath
  targets : List NodePath
  guard : Option Nat := none
  internal : Bool := true
  description : Option String := none

/-- `toTransitionElement(edge, projectMachineState)` (index.ts lines
299-345). The digraph's node map is played by the tree `t` of this
development and `blocks` maps block ids to their `sourceId`s; `none`
models the lookups/`assertUnreachable` the source would throw on. The
transition record keeps JS object insertion order: `target`, then
`guard`, `reenter`, `description` when present; the description gate is
the JS-truthy `if (edge.data.description)`, so an empty-string
description is skipped (`jsTruthy`); a record holding only `target`
collapses to the bare target element. -/
def toTransitionElement (t : MTree) (blocks : List (Nat × String))
    (edge : PEdge) : Option CElem :=
  let targetElem : Option CElem :=
    match edge.targets with
    | [] => some CElem.undef
    | [tg] => (getBestTargetDescriptor t edge.source tg).map
        (fun d => CElem.str d false)
    | tgs =>
      (allSome (tgs.map (fun tg => (getBestTargetDescriptor t edge.source tg).map
        (fun d => CElem.str d false)))).map CElem.arr
  match targetElem with
  | none => none
  | some tElem =>
    let withGuard : Option (List (String × CElem)) :=
      match edge.guard with
      | none => some [("target", tElem)]
      | some g => (Extract.getAssoc blocks g).map
          (fun sid => [("target", tElem), ("guard", CElem.str sid false)])
    match withGuard with
    | none => none
    | some props =>
      let props :=
        if edge.internal = false then props ++ [("reenter", CElem.bool true)]
        else props
      let props :=
        match jsTruthy edge.description with
        | some d => props ++ [("description", CElem.str d true)]
        | none => props
      if props.length = 1 then some tElem else some (CElem.obj props)

/-- C5: the synthesized transition value is the bare descriptor string
when no other field is set, and otherwise an object literal carrying
`target` first (single descriptor, array of descriptors for several
targets, `undefined` for none), then `guard` (the block's sourceId) only
when a guard is set, `reenter: true` only when `internal` is `false`,
and `description` only when a non-empty one is set — a JS-falsy empty
description is skipped like an absent one, collapsing back to the bare
target. -/
theorem toTransitionElement_shape :
    (∀ (t : MTree) (blocks : List (Nat × String)) (source tg : NodePath)
      (d : String),
      getBestTargetDescriptor t source tg = some d →
      toTransitionElement t blocks ⟨source, [tg], none, true, none⟩ =
        some (.str d false)) ∧
    (∀ (t : MTree) (blocks : List (Nat × String)) (source tg : NodePath)
      (d : String) (g : Nat) (sid : String),
      getBestTargetDescriptor t source tg = some d →
      Extract.getAssoc blocks g = some sid →
      toTransitionElement t blocks ⟨source, [tg], some g, true, none⟩ =
        some (.obj [("target", .str d false), ("guard", .str sid false)])) ∧
    (∀ (t : MTree) (blocks : List (Nat × String)) (source tg : NodePath)
      (d : String),
      getBestTargetDescriptor t source tg = some d →
      toTransitionElement t blocks ⟨source, [tg], none, false, none⟩ =
        some (.obj [("target", .str d false), ("reenter", .bool true)])) ∧
    (∀ (t : MTree) (blocks : List (Nat × String)) (source tg : NodePath)
      (d dsc : String),
      getBestTargetDescriptor t source tg = some d →
      dsc ≠ "" →
      toTransitionElement t blocks ⟨source, [tg], none, true, some dsc⟩ =
        some (.obj [("target", .str d false), ("description", .str dsc true)])) ∧
    (∀ (t : MTree) (blocks : List (Nat × String)) (source tg : NodePath)
      (d : String),
      getBestTargetDescriptor t source tg = some d →
      toTransitionElement t blocks ⟨source, [tg], none, true, some ""⟩ =
        some (.str d false)) ∧
    (∀ (t : MTree) (blocks : List (Nat × String)) (source t1 t2 : NodePath)
      (d1 d2 : String) (g : Nat) (sid : String) (dsc : String),
      getBestTargetDescriptor t source t1 = some d1 →
      getBestTargetDescriptor t source t2 = some d2 →
      Extract.getAssoc blocks g = some sid →
      dsc ≠ "" →
      toTransitionElement t blocks ⟨source, [t1, t2], some g, false, some dsc⟩ =
        some (.obj [("target", .arr [.str d1 false, .str d2 false]),
          ("guard", .str sid false), ("reenter", .bool true),
          ("description", .str dsc true)])) ∧
    (∀ (t : MTree) (blocks : List (Nat × String)) (source : NodePath),
      toTransitionElement t blocks ⟨source, [], none, true, none⟩ =
        some .undef) := by
  refine ⟨?_, ?_, ?_, ?_, ?_, ?_, ?_⟩
  · intro t blocks source tg d hd
    unfold toTransitionElement
    dsimp only
    rw [hd]
    rfl
  · intro t blocks source tg d g sid hd hg
    unfold toTransitionElement
    dsimp only
    rw [hd, hg]
    rfl
  · intro t blocks source tg d hd
    unfold toTransitionElement
    dsimp only
    rw [hd]
    rfl
  · intro t blocks source tg d dsc hd hds
    unfold toTransitionElement
    dsimp only
    rw [hd]
    simp only [jsTruthy]
    rw [if_neg hds]
    rfl
  · intro t blocks source tg d hd
    unfold toTransitionElement
    dsimp only
    rw [hd]
    rfl
  · intro t blocks source t1 t2 d1 d2 g sid dsc h1 h2 hg hds
    unfold toTransitionElement
    dsimp only
    simp only [List.map_cons, List.map_nil, h1, h2, hg, jsTruthy]
    rw [if_neg hds]
    rfl
  · intro t blocks source
    rfl

/-- A two-leaf machine used to witness patch synthesis. -/
def pTree : MTree := .node (some "root") [("a", .node none []), ("b", .node none [])]

/-- Witness: on the two-leaf tree, an `a → b` edge with no extra fields
is written as the bare string `"b"`; with a guard and `internal: false`
as the corresponding objects; with the non-empty description `"hey"` as
an object carrying it; and with the empty description again as the bare
string `"b"`. -/
theorem toTransitionElement_shape_witness :
    toTransitionElement pTree [] ⟨["a"], [["b"]], none, true, none⟩ =
      some (.str "b" false) ∧
    toTransitionElement pTree [(7, "myGuard")]
        ⟨["a"], [["b"]], some 7, true, none⟩ =
      some (.obj [("target", .str "b" false), ("guard", .str "myGuard" false)]) ∧
    toTransitionElement pTree [] ⟨["a"], [["b"]], none, false, none⟩ =
      some (.obj [("target", .str "b" false), ("reenter", .bool true)]) ∧
    toTransitionElement pTree [] ⟨["a"], [["b"]], none, true, some "hey"⟩ =
      some (.obj [("target", .str "b" false), ("description", .str "hey" true)]) ∧
    toTransitionElement pTree [] ⟨["a"], [["b"]], none, true, some ""⟩ =
      some (.str "b" false) :=
  ⟨toTransitionElement_shape.1 pTree [] ["a"] ["b"] "b" (by decide),
   toTransitionElement_shape.2.1 pTree [(7, "myGuard")] ["a"] ["b"] "b" 7 "myGuard"
     (by decide) (by decide),
   toTransitionElement_shape.2.2.1 pTree [] ["a"] ["b"] "b" (by decide),
   toTransitionElement_shape.2.2.2.1 pTree [] ["a"] ["b"] "b" "hey" (by decide)
     (by decide),
   toTransitionElement_shape.2.2.2.2.1 pTree [] ["a"] ["b"] "b" (by decide)⟩

end Patch

namespace Patch

/-- One segment of a structural insertion path: an object key or an
array index (JS `indexOf` can yield `-1`, hence `Int`). -/
inductive PathKey where
  | k (s : String)
  | i (n : Int)
deriving DecidableEq, Repr

/-- JS `array.indexOf(x)`: first index, `-1` when absent. -/
def jsIndexOf (l : List Nat) (x : Nat) : Int :=
  match l.findIdx? (fun y => y == x) with
  | some idx => Int.ofNat idx
  | none => -1

/-- `getTransitionInsertionPath(edge, projectMachineState)` (index.ts
lines 347-378): `sourceInvoke` is the source node's `data.invoke` block
list; `Except.error` models the thrown `Error('Not implemented')`. -/
def getTransitionInsertionPath (sourceInvoke : List Nat)
    (etd : Extract.EventTypeData) : Except String (List PathKey) :=
  match etd with
  | .after => .error "Not implemented"
  | .named eventType => .ok [.k "on", .k eventType]
  | .invocationDone invocationId =>
    .ok [.k "invoke", .i (jsIndexOf sourceInvoke invocationId), .k "onDone"]
  | .invocationError invocationId =>
    .ok [.k "invoke", .i (jsIndexOf sourceInvoke invocationId), .k "onError"]
  | .stateDone => .ok [.k "onDone"]
  | .always => .ok [.k "always"]
  | .wildcard => .error "Not implemented"
  | .init => .error "Not implemented"

/-- C6: insertion-path computation raises exactly for the `after`,
`wildcard` and `init` event kinds, and yields the structural path —
without raising — for `named`, `always`, `state.done`,
`invocation.done` and `invocation.error` kinds. -/
theorem insertion_path_errors (sourceInvoke : List Nat)
    (etd : Extract.EventTypeData) :
    ((∃ msg, getTransitionInsertionPath sourceInvoke etd = .error msg) ↔
      (etd = .after ∨ etd = .wildcard ∨ etd = .init)) ∧
    (∀ ev, etd = .named ev →
      getTransitionInsertionPath sourceInvoke etd = .ok [.k "on", .k ev]) ∧
    (etd = .always →
      getTransitionInsertionPath sourceInvoke etd = .ok [.k "always"]) ∧
    (etd = .stateDone →
      getTransitionInsertionPath sourceInvoke etd = .ok [.k "onDone"]) ∧
    (∀ iid, etd = .invocationDone iid →
      getTransitionInsertionPath sourceInvoke etd =
        .ok [.k "invoke", .i (jsIndexOf sourceInvoke iid), .k "onDone"]) ∧
    (∀ iid, etd = .invocationError iid →
      getTransitionInsertionPath sourceInvoke etd =
        .ok [.k "invoke", .i (jsIndexOf sourceInvoke iid), .k "onError"]) := by
  cases etd <;> simp [getTransitionInsertionPath]

/-- Witness: `after` raises while a named event yields `['on', event]`. -/
theorem insertion_path_errors_witness :
    (∃ msg, getTransitionInsertionPath [] .after = .error msg) ∧
    getTransitionInsertionPath [5] (.named "go") = .ok [.k "on", .k "go"] :=
  ⟨(insertion_path_errors [] .after).1.2 (Or.inl rfl),
   (insertion_path_errors [5] (.named "go")).2.1 "go" rfl⟩

end Patch

/-! ## Project-level state (`createProject`, index.ts lines 689-773) -/

namespace Proj

/-- The mutable project seen by the exported operations: `program` is
the current TypeScript program, abstracted to the number of
`createMachine` call sites per source file (absent entry: the program
has no such file); `machines` is the `projectMachines` cache, abstracted
to the number of `ProjectMachine`s created for a file (each carrying its
extraction state from the `getDigraph` run at creation). -/
structure Project where
  program : List (String × Nat)
  machines : List (String × Nat) := []

/-- Lookup in a per-file table. -/
def fileGet (l : List (String × Nat)) (f : String) : Option Nat :=
  (l.find? (fun e => e.1 == f)).map (fun e => e.2)

/-- `getMachinesInFile` (index.ts lines 719-734): on first access for a
file of the current program it creates one `ProjectMachine` per
`createMachine` call site (running extraction for each); later accesses
reuse the cached machines (only re-running extraction, which does not
change the cache). -/
def getMachinesInFile (proj : Project) (fileName : String) : Project :=
  match fileGet proj.machines fileName with
  | some _ => proj
  | none =>
    match fileGet proj.program fileName with
    | none => proj
    | some n => { proj with machines := proj.machines ++ [(fileName, n)] }

/-- `updateTsProgram` (index.ts lines 750-752): swaps the current
program, leaving the machine cache untouched. -/
def updateTsProgram (proj : Project) (program : List (String × Nat)) : Project :=
  { proj with program := program }

/-- The errors project-level patching can throw: `Machine not found`
(project lookup, index.ts line 746, or `findOwnCreateMachineCall`,
line 403) and `File not found` (line 395). -/
inductive PatchError where
  | machineNotFound
  | fileNotFound
deriving DecidableEq, Repr

/-- Project-level `applyPatches` (index.ts lines 735-749): the machine
is looked up in the `projectMachines` cache, then its own `applyPatches`
re-locates the `createMachine` call in the CURRENT program
(`findOwnCreateMachineCall`, lines 391-406) before computing the edits,
abstracted here as `edits`. -/
def applyPatches {TE : Type} (edits : String → Nat → List TE) (proj : Project)
    (fileName : String) (machineIndex : Nat) : Except PatchError (List TE) :=
  match fileGet proj.machines fileName with
  | none => .error .machineNotFound
  | some n =>
    if machineIndex < n then
      match fileGet proj.program fileName with
      | none => .error .fileNotFound
      | some m =>
        if machineIndex < m then .ok (edits fileName machineIndex)
        else .error .machineNotFound
    else .error .machineNotFound

/-- A project whose program holds one machine in file `f`, extracted and
then updated to a program where `f` lost its `createMachine` call. -/
def staleProj : Project :=
  updateTsProgram (getMachinesInFile { program := [("f", 1)] } "f") [("f", 0)]

/-- C7 counterexample: after extraction of `f`'s machine 0 and a program
update that removed the `createMachine` call, per-machine state for
`(f, 0)` still exists, yet `applyPatches` raises `Machine not found`. -/
theorem c7_counterexample :
    fileGet staleProj.machines "f" = some 1 ∧
    applyPatches (fun _ _ => ([] : List Nat)) staleProj "f" 0 =
      .error .machineNotFound := ⟨rfl, rfl⟩

/-- C7 (amended): `applyPatches` raises `Machine not found` whenever no
prior extraction established state for `(file, machineIndex)`; with such
state it returns the machine's edits provided the current program still
holds a `createMachine` call at that index, and otherwise — state
present but call gone after a program update — it raises `Machine not
found` (or `File not found` when the file itself is gone). -/
theorem applyPatches_state (TE : Type) (edits : String → Nat → List TE)
    (proj : Project) (f : String) (idx : Nat) :
    (fileGet proj.machines f = none →
      applyPatches edits proj f idx = .error .machineNotFound) ∧
    (∀ n, fileGet proj.machines f = some n → n ≤ idx →
      applyPatches edits proj f idx = .error .machineNotFound) ∧
    (∀ n m, fileGet proj.machines f = some n → idx < n →
      fileGet proj.program f = some m → idx < m →
      applyPatches edits proj f idx = .ok (edits f idx)) ∧
    (∀ n, fileGet proj.machines f = some n → idx < n →
      applyPatches edits proj f idx = .error .machineNotFound →
      ∃ m, fileGet proj.program f = some m ∧ m ≤ idx) := by
  refine ⟨?_, ?_, ?_, ?_⟩
  · intro h
    unfold applyPatches
    rw [h]
  · intro n hn hle
    unfold applyPatches
    rw [hn]
    dsimp only
    have : ¬ idx < n := by omega
    rw [if_neg this]
  · intro n m hn hlt hm hltm
    unfold applyPatches
    rw [hn]
    dsimp only
    rw [if_pos hlt, hm]
    dsimp only
    rw [if_pos hltm]
  · intro n hn hlt herr
    unfold applyPatches at herr
    rw [hn] at herr
    dsimp only at herr
    rw [if_pos hlt] at herr
    cases hm : fileGet proj.program f with
    | none => rw [hm] at herr; exact absurd herr (by simp)
    | some m =>
      rw [hm] at herr
      dsimp only at herr
      refine ⟨m, rfl, ?_⟩
      by_cases hc : idx < m
      · rw [if_pos hc] at herr
        exact absurd herr (by simp)
      · omega

/-- Witness: with state for `(f, 0)` and the call still present the
edits are returned; without any state the machine is not found. -/
theorem applyPatches_state_witness :
    applyPatches (fun _ _ => ([3] : List Nat))
        { program := [("f", 1)], machines := [("f", 1)] } "f" 0 = .ok [3] ∧
    applyPatches (fun _ _ => ([3] : List Nat)) { program := [("f", 1)] } "f" 0 =
      .error .machineNotFound :=
  ⟨(applyPatches_state Nat (fun _ _ => [3])
      { program := [("f", 1)], machines := [("f", 1)] } "f" 0).2.2.1 1 1
      rfl (by decide) rfl (by decide),
   (applyPatches_state Nat (fun _ _ => [3])
      { program := [("f", 1)] } "f" 0).1 rfl⟩

end Proj

/-! ## Preferred quote character for synthesized literals -/

namespace Quote

/-- A top-level statement as classified by `getPreferredQuoteCharCode`
(utility module, lines 252-271): an import or export declaration whose
module specifier is a string literal carries the first character of the
literal's source text (its quote); any other statement — or an
import/export whose specifier is absent or not a string literal —
contributes nothing to the scan. -/
inductive Statement where
  | importOrExport (specQuote : Option Char)
  | other
deriving DecidableEq, Repr

/-- `charCodes.doubleQuote`. -/
def doubleQuote : Char := Char.ofNat 34

/-- `getPreferredQuoteCharCode(ts, sourceFile)`: the quote character of
the first import/export string-literal module specifier of the file;
double quote when no statement has one. -/
def getPreferredQuoteCharCode : List Statement → Char
  | [] => doubleQuote
  | .importOrExport (some q) :: _ => q
  | .importOrExport none :: rest => getPreferredQuoteCharCode rest
  | .other :: rest => getPreferredQuoteCharCode rest

/-- The quote a single statement contributes to the scan. -/
def specQuoteOf : Statement → Option Char
  | .importOrExport q => q
  | .other => none

/-- Modelled from the spec: the literal-synthesis layer of the patch
engine (`codeChanges.ts`, not part of the sources embedded here) picks
the file's dominant quote character — scanned from its import/export
module specifiers, defaulting to double-quote — for new string
literals, i.e. every synthesized string literal is wrapped in the
character `getPreferredQuoteCharCode` returns for its file. Escaping of
quote characters occurring inside the content is not modelled. -/
def renderStringLiteral (statements : List Statement) (s : String) : String :=
  let q := getPreferredQuoteCharCode statements
  String.mk (q :: (s.toList ++ [q]))

/-- C8: the preferred quote character is exactly the first import/export
string-literal module specifier's quote — double quote if there is none,
in particular whenever no statement carries a specifier quote — and
every synthesized string literal starts and ends with that character. -/
theorem preferred_quote_spec (statements : List Statement) (s : String) :
    getPreferredQuoteCharCode statements =
      ((statements.filterMap specQuoteOf).head?.getD doubleQuote) ∧
    (renderStringLiteral statements s).toList.head? =
      some (getPreferredQuoteCharCode statements) ∧
    (renderStringLiteral statements s).toList.getLast? =
      some (getPreferredQuoteCharCode statements) ∧
    ((∀ st ∈ statements, specQuoteOf st = none) →
      getPreferredQuoteCharCode statements = doubleQuote) := by
  have hscan : ∀ l : List Statement, getPreferredQuoteCharCode l =
      ((l.filterMap specQuoteOf).head?.getD doubleQuote) := by
    intro l
    induction l with
    | nil => rfl
    | cons st rest ih =>
      match st with
      | .importOrExport (some q) => rfl
      | .importOrExport none =>
        rw [List.filterMap_cons]
        exact ih
      | .other =>
        rw [List.filterMap_cons]
        exact ih
  refine ⟨hscan statements, rfl, ?_, ?_⟩
  · show (getPreferredQuoteCharCode statements ::
        (s.toList ++ [getPreferredQuoteCharCode statements])).getLast? = _
    rw [← List.cons_append, List.getLast?_concat]
  · intro hall
    rw [hscan statements, List.filterMap_eq_nil_iff.2 hall]
    rfl

/-- Witness: a file opening with a single-quoted import specifier gets
single-quoted literals; one with no string-literal specifier at all
falls back to the double quote. -/
theorem preferred_quote_spec_witness :
    renderStringLiteral [Statement.importOrExport (some (Char.ofNat 39))] "hi" =
      String.mk (Char.ofNat 39 :: ("hi".toList ++ [Char.ofNat 39])) ∧
    getPreferredQuoteCharCode [Statement.other, .importOrExport none] =
      doubleQuote := by
  constructor
  · rfl
  · exact (preferred_quote_spec [Statement.other, .importOrExport none] "").2.2.2
      (by decide)

end Quote
